import Mathlib

/-!
Shallow embedding of the gena / flask_peewee_restful core: the list-endpoint
query compiler of `flask_peewee_restful/api_generator.py` (parameter grammar,
filter construction, the three execution plans against a relational store
model), the value codecs of `gena/serializer.py` / `gena/deserializer.py`,
the create endpoint, and the recursive dataclass-deserializer derivation.
Each definition is translated from the corresponding Python source; external
collaborators (the SQL store, `dateutil`, the process timezone) are modelled
as explicit parameters.
-/

namespace Spec2Proof

/-- SQL-level scalar values stored in table cells and produced by the
request-parameter deserializers (the list endpoint only ever produces
ints, strings and booleans from query strings). -/
inductive Val where
  | vInt (n : Int)
  | vStr (s : String)
  | vBool (b : Bool)
deriving DecidableEq, Repr

/-- A database row, as `playhouse.shortcuts.model_to_dict(recurse=False)`
renders it: an association list from field name to value. -/
abbrev Row := List (String × Val)

/-- `getattr(record, name)` / column access on a row; `none` models SQL NULL
or an absent attribute. -/
def rowGet (r : Row) (name : String) : Option Val :=
  (r.find? (fun p => p.1 = name)).map (·.2)

/-- Storage kinds of the model fields that the generated deserializers
distinguish on the query-string path (`generate_deserializer`:
IntegerField -> deserialize_int, CharField/TextField -> deserialize_str,
BooleanField -> deserialize_bool). -/
inductive FieldTy where
  | tInt
  | tStr
  | tBool
deriving DecidableEq, Repr

/-- The field map `name2field` of a model: field name to storage kind. -/
abbrev Schema := List (String × FieldTy)

def lookupField (schema : Schema) (name : String) : Option FieldTy :=
  (schema.find? (fun p => p.1 = name)).map (·.2)

/-- Python `str.split(",")`: splitting never yields an empty list
(`"".split(",") == [""]`). -/
def splitCSV (s : String) : List String :=
  let step : Char → List (List Char) → List (List Char) := fun c acc =>
    match acc with
    | [] => [[c]]
    | h :: t => if c = ',' then [] :: h :: t else (c :: h) :: t
  (s.toList.foldr step [[]]).map List.asString

/-- No two adjacent underscores (part of Python's int-literal grammar). -/
def noConsecUnderscores : List Char → Bool
  | '_' :: '_' :: _ => false
  | _ :: rest => noConsecUnderscores rest
  | [] => true

/-- Python `int(argstring)`: optional surrounding whitespace, an optional
sign, then decimal digits with single underscores allowed between digits
(`int("1_0") == 10`, while `_1`, `1_` and `1__0` are rejected). Returns
`none` where `int()` raises `ValueError`. Idealization: only ASCII
decimal digits are modelled (`int()` also accepts other Unicode decimal
digits, which never occur in this development). -/
def parsePyInt (s : String) : Option Int :=
  let cs := s.toList.dropWhile (·.isWhitespace)
  let cs := (cs.reverse.dropWhile (·.isWhitespace)).reverse
  let (neg, digits) :=
    match cs with
    | '-' :: rest => (true, rest)
    | '+' :: rest => (false, rest)
    | _ => (false, cs)
  if digits.isEmpty ||
     !(digits.all (fun c => c.isDigit || c == '_')) ||
     !((digits.head?.map Char.isDigit).getD false) ||
     !((digits.getLast?.map Char.isDigit).getD false) ||
     !(noConsecUnderscores digits) then none
  else
    let n : Nat := digits.foldl
      (fun acc c => if c == '_' then acc else acc * 10 + (c.toNat - '0'.toNat)) 0
    some (if neg then -(n : Int) else (n : Int))

/-- Character class of the regex group `(?P<name>[a-zA-Z_0-9]+)`. -/
def isNameChar (c : Char) : Bool :=
  ('a' ≤ c ∧ c ≤ 'z') ∨ ('A' ≤ c ∧ c ≤ 'Z') ∨ ('0' ≤ c ∧ c ≤ '9') ∨ c = '_'

/-- Character class of the regex group `(?P<op>[a-zA-Z0-9]+)`. -/
def isOpChar (c : Char) : Bool :=
  ('a' ≤ c ∧ c ≤ 'z') ∨ ('A' ≤ c ∧ c ≤ 'Z') ∨ ('0' ≤ c ∧ c ≤ '9')

/-- `re.match(r"(?P<name>[a-zA-Z_0-9]+)(?:\[(?P<op>[a-zA-Z0-9]+)\])?", s)`.
`re.match` anchors only at the start: a greedy name run, then the optional
bracketed operator group; whatever trails after the match is ignored, and
when the bracket group cannot complete the optional group matches empty.
Returns `none` exactly when the whole regex fails (no leading name char). -/
def parseParamName (s : String) : Option (String × Option String) :=
  let cs := s.toList
  let name := cs.takeWhile isNameChar
  if name = [] then none
  else
    let rest := cs.dropWhile isNameChar
    match rest with
    | '[' :: rest2 =>
      let op := rest2.takeWhile isOpChar
      if op = [] then some (name.asString, none)
      else
        match rest2.dropWhile isOpChar with
        | ']' :: _ => some (name.asString, some op.asString)
        | _ => some (name.asString, none)
    | _ => some (name.asString, none)

/-- The reserved control parameters of the list endpoint (`op_fields`). -/
def opFields : List String :=
  ["fields", "limit", "offset", "unique", "sorted_by", "group_by"]

/-- The exceptions the list endpoint can surface: `werkzeug.BadRequest` /
`NotFound`, and the uncaught Python `ValueError` / `KeyError` /
`AssertionError` that escape as internal errors. -/
inductive ApiError where
  | badRequest (msg : String)
  | notFound (msg : String)
  | valueError (msg : String)
  | keyError (msg : String)
  | assertionError
deriving DecidableEq, Repr

/-- The per-field deserializer applied to a raw query-string value:
`deserialize_int` on a string argument is Python `int(value)`,
`deserialize_str` is the identity on strings, `deserialize_bool` accepts
exactly `"true"`/`"false"`. Raises `ValueError` (as the Python functions
do) when the shape check fails. -/
def deserQueryValue (ty : FieldTy) (s : String) : Except ApiError Val :=
  match ty with
  | .tInt =>
    match parsePyInt s with
    | some n => .ok (.vInt n)
    | none => .error (.valueError s!"invalid literal for int() with base 10: {s}")
  | .tStr => .ok (.vStr s)
  | .tBool =>
    if s = "true" then .ok (.vBool true)
    else if s = "false" then .ok (.vBool false)
    else .error (.valueError s!"expect bool string but get: {s}")

/-- A compiled `where`-clause predicate (one peewee expression such as
`field == value`, `field > value`, `field.in_([...])`). -/
inductive Cond where
  | ceq (f : String) (v : Val)
  | cgt (f : String) (v : Val)
  | cgte (f : String) (v : Val)
  | clt (f : String) (v : Val)
  | clte (f : String) (v : Val)
  | cin (f : String) (vs : List Val)
deriving DecidableEq, Repr

/-- SQL comparison between same-typed scalars; heterogeneous comparisons
never arise from a single typed column. -/
def valLt (a b : Val) : Bool :=
  match a, b with
  | .vInt x, .vInt y => x < y
  | .vStr x, .vStr y => x < y
  | .vBool x, .vBool y => !x && y
  | _, _ => false

/-- Total comparison used to model the SQL `MAX` aggregate over a column
(a fixed tie-free ordering across the scalar kinds so the maximum always
exists; on a single typed column it coincides with SQL ordering). -/
def valLe (a b : Val) : Bool :=
  match a, b with
  | .vInt x, .vInt y => x ≤ y
  | .vStr x, .vStr y => x ≤ y
  | .vBool x, .vBool y => !x || y
  | .vBool _, _ => true
  | _, .vBool _ => false
  | .vInt _, .vStr _ => true
  | .vStr _, .vInt _ => false

/-- `valLe` lifted to nullable columns, SQL NULL ordered first (as the
SQL `MAX` aggregate ignores NULLs, a NULL cell never wins the maximum
unless the whole group is NULL). -/
def valOptLe (a b : Option Val) : Bool :=
  match a, b with
  | none, _ => true
  | some _, none => false
  | some x, some y => valLe x y

/-- SQL `=` between two possibly-NULL cells: NULL is never equal. -/
def sqlEq (a b : Option Val) : Bool :=
  match a, b with
  | some x, some y => decide (x = y)
  | _, _ => false

/-- Evaluate one compiled predicate on a row (SQL three-valued logic
collapsed to "row passes the filter or not": comparisons with NULL fail). -/
def evalCond (r : Row) (c : Cond) : Bool :=
  match c with
  | .ceq f v => sqlEq (rowGet r f) (some v)
  | .cgt f v => match rowGet r f with | some w => valLt v w | none => false
  | .cgte f v => match rowGet r f with | some w => !valLt w v | none => false
  | .clt f v => match rowGet r f with | some w => valLt w v | none => false
  | .clte f v => match rowGet r f with | some w => !valLt v w | none => false
  | .cin f vs => match rowGet r f with | some w => vs.contains w | none => false

/-- Distinct values of a list keeping the first occurrence of each — the
set of rows of `SELECT DISTINCT` / the set of groups of `GROUP BY`. -/
def firstDedupAux [DecidableEq α] (seen : List α) : List α → List α
  | [] => []
  | a :: l => if a ∈ seen then firstDedupAux seen l else a :: firstDedupAux (a :: seen) l

def firstDedup [DecidableEq α] (l : List α) : List α :=
  firstDedupAux [] l

/-- `request.args.get(k)`: first value registered under a key. -/
def getArg (args : List (String × String)) (k : String) : Option String :=
  (args.find? (fun p => p.1 = k)).map (·.2)

/-- Ordering key comparison for `ORDER BY f1 [DESC], f2 [DESC], ...`
(each entry is `(field, descending?)`). -/
def rowLe (orderBy : List (String × Bool)) (r s : Row) : Bool :=
  match orderBy with
  | [] => true
  | (f, desc) :: rest =>
    let a := rowGet r f
    let b := rowGet s f
    if a = b then rowLe rest r s
    else if desc then valOptLe b a else valOptLe a b

/-- `ORDER BY` on the row list (stable merge sort). -/
def sortRows (orderBy : List (String × Bool)) (rows : List Row) : List Row :=
  rows.mergeSort (rowLe orderBy)

/-- The tuple of grouping-column values of a row (`GROUP BY` key). -/
def keyTuple (gfs : List String) (r : Row) : List (Option Val) :=
  gfs.map (rowGet r)

/-- SQL `LIMIT limit OFFSET offset` (SQLite: a negative limit means
no limit, a negative offset means offset 0). -/
def applyLimitOffset (limit offset : Int) (l : List α) : List α :=
  let l1 := l.drop offset.toNat
  if limit < 0 then l1 else l1.take limit.toNat

/-- The row a SQLite `SELECT id, MAX(f) ... GROUP BY ...` group row comes
from: a row of the group achieving the maximum of column `f` (SQLite fills
the bare `id` column from such a row; the model picks the first). -/
def maxRowOf (fname : String) (l : List Row) : Option Row :=
  l.find? (fun r => l.all (fun s => valOptLe (rowGet s fname) (rowGet r fname)))

/-- The derived table of the Plan-B sub-query
`Model.select(Model.id, fn.MAX(field)).group_by(*gfs)[.where(*gconds)]`:
one representative row per group of the (optionally filtered) full table. -/
def planBSubTable (table : List Row) (fname : String) (gfs : List String)
    (gconds : List Cond) : List Row :=
  let subRows := if gconds.isEmpty then table
                 else table.filter (fun s => gconds.all (evalCond s))
  (firstDedup (subRows.map (keyTuple gfs))).filterMap
    (fun k => maxRowOf fname (subRows.filter (fun s => decide (keyTuple gfs s = k))))

/-- The Plan-B join predicate
`(Model.id == subquery.c.id) & (field == subquery.c.<alias>)` evaluated
against the sub-query's derived table. -/
def planBCond (table : List Row) (fname : String) (gfs : List String)
    (gconds : List Cond) (r : Row) : Bool :=
  (planBSubTable table fname gfs gconds).any
    (fun rep => sqlEq (rowGet r "id") (rowGet rep "id") &&
                sqlEq (rowGet r fname) (rowGet rep fname))

/-- The aggregation strategy a request compiles to: `planC` is the
`group_by` branch, `planB joins` the default branch with one extremum
join per pending `max` operator (an empty `joins` list is the plain
filter query). -/
inductive Plan where
  | planC (gfs : List String)
  | planB (joins : List (String × List String × List Cond))
deriving DecidableEq, Repr

/-- Everything the list endpoint extracts from the request before rows are
touched (the queries are lazy: peewee only runs SQL at `list(query)` /
`.count()`, after all parameter processing). -/
structure CompiledQuery where
  fieldNames : List String
  limit : Int
  offset : Int
  unique : Bool
  orderBy : List (String × Bool)
  conds : List (String × List Cond)
  plan : Plan
deriving DecidableEq, Repr

/-- Append `e` under key `k`, preserving Python-dict insertion order
(`defaultdict(list)` / `defaultdict(dict)` access pattern). -/
def pushEntry (m : List (String × List α)) (k : String) (e : α) :
    List (String × List α) :=
  if m.any (fun p => p.1 = k) then
    m.map (fun p => if p.1 = k then (p.1, p.2 ++ [e]) else p)
  else m ++ [(k, [e])]

/-- Key membership in an insertion-ordered dict. -/
def hasKey (m : List (String × List α)) (k : String) : Bool :=
  m.any (fun p => p.1 = k)

def getEntries (m : List (String × List α)) (k : String) : List α :=
  ((m.find? (fun p => p.1 = k)).map (·.2)).getD []

/-- Raw per-field filter parameters after the first pass
(`filter_fields: name -> [(op, raw value)]`). -/
abbrev FilterFields := List (String × List (Option String × String))

/-- `pending_ops: name -> {op: raw value}` (only `max` is ever inserted). -/
abbrev PendingOps := List (String × List (String × String))

/-- `conditions: field -> [predicates]`. -/
abbrev CondMap := List (String × List Cond)

/-- Fail-fast elementwise traversal (the semantics of a Python list
comprehension over a fallible function). -/
def mapE {ε α β : Type} (f : α → Except ε β) :
    List α → Except ε (List β)
  | [] => .ok []
  | x :: xs =>
    match f x with
    | .error e => .error e
    | .ok y =>
      match mapE f xs with
      | .error e => .error e
      | .ok ys => .ok (y :: ys)

/-- `fields=` handling: split the list and look every name up in
`name2field` (an unknown name raises `KeyError`, an uncaught internal
error). -/
def stageFields (schema : Schema) (args : List (String × String)) :
    Except ApiError (List String) :=
  match getArg args "fields" with
  | none => .ok []
  | some fs =>
    let names := splitCSV fs
    match names.find? (fun n => (lookupField schema n).isNone) with
    | some n => .error (.keyError n)
    | none => .ok names

/-- `int(request.args.get(key, default))` — an unparsable value raises an
uncaught `ValueError`. -/
def stageInt (args : List (String × String)) (key dflt : String) :
    Except ApiError Int :=
  let s := (getArg args key).getD dflt
  match parsePyInt s with
  | some n => .ok n
  | none => .error (.valueError s!"invalid literal for int() with base 10: {s}")

/-- `sorted_by=` handling: `-field` is descending; an unknown (stripped)
name is a `BadRequest`. -/
def stageSortedBy (schema : Schema) (args : List (String × String)) :
    Except ApiError (List (String × Bool)) :=
  match getArg args "sorted_by" with
  | none => .ok []
  | some sb =>
    mapE (fun f =>
      let desc := f.startsWith "-"
      let base := if desc then f.drop 1 else f
      if (lookupField schema base).isSome then .ok (base, desc)
      else .error (.badRequest s!"Invalid field name: {base}")) (splitCSV sb)

/-- `group_by=` handling: every listed name must be a known field. -/
def stageGroupBy (schema : Schema) (args : List (String × String)) :
    Except ApiError (List String) :=
  match getArg args "group_by" with
  | none => .ok []
  | some gb =>
    mapE (fun f =>
      if (lookupField schema f).isSome then .ok f
      else .error (.badRequest s!"Invalid field name: {f}")) (splitCSV gb)

/-- First pass over the non-reserved parameters: match each name against
the parameter regex, check the parsed base name is a known field, and
group the `(op, raw value)` pairs per base name. -/
def collectFF (schema : Schema) :
    List (String × String) → FilterFields → Except ApiError FilterFields
  | [], acc => .ok acc
  | (n, v) :: rest, acc =>
    if n ∈ opFields then collectFF schema rest acc
    else
      match parseParamName n with
      | none => .error (.badRequest s!"Invalid field name: {n}")
      | some (base, op) =>
        if (lookupField schema base).isSome then
          collectFF schema rest (pushEntry acc base (op, v))
        else .error (.badRequest s!"Invalid field name: {base}")

def fieldTyOf (schema : Schema) (name : String) : Except ApiError FieldTy :=
  match lookupField schema name with
  | some t => .ok t
  | none => .error (.keyError name)

/-- Second pass, one `(op, value)` pair: `max` is deferred into
`pending_ops` (a repeated `max` on one field trips the `assert`); `in`
splits on `,` and deserializes each element; any other operator first
deserializes the value, then either adds a comparison predicate or (for
an unknown operator) raises `BadRequest`. -/
def procOneFilter (schema : Schema) (name : String)
    (e : Option String × String) (st : PendingOps × CondMap) :
    Except ApiError (PendingOps × CondMap) :=
  if e.1 = some "max" then
    if (getEntries st.1 name).any (fun p => p.1 = "max") then
      .error .assertionError
    else .ok (pushEntry st.1 name ("max", e.2), st.2)
  else if e.1 = some "in" then
    match fieldTyOf schema name with
    | .error er => .error er
    | .ok ty =>
      match mapE (deserQueryValue ty) (splitCSV e.2) with
      | .error er => .error er
      | .ok vs => .ok (st.1, pushEntry st.2 name (.cin name vs))
  else
    match fieldTyOf schema name with
    | .error er => .error er
    | .ok ty =>
      match deserQueryValue ty e.2 with
      | .error er => .error er
      | .ok tv =>
        match e.1 with
        | none => .ok (st.1, pushEntry st.2 name (.ceq name tv))
        | some o =>
          if o = "gt" then .ok (st.1, pushEntry st.2 name (.cgt name tv))
          else if o = "gte" then .ok (st.1, pushEntry st.2 name (.cgte name tv))
          else if o = "lt" then .ok (st.1, pushEntry st.2 name (.clt name tv))
          else if o = "lte" then .ok (st.1, pushEntry st.2 name (.clte name tv))
          else .error (.badRequest s!"Does not support {o} yet")

def procFilterList (schema : Schema) (name : String) :
    List (Option String × String) → PendingOps × CondMap →
    Except ApiError (PendingOps × CondMap)
  | [], st => .ok st
  | e :: es, st =>
    match procOneFilter schema name e st with
    | .error er => .error er
    | .ok st' => procFilterList schema name es st'

def buildConditions (schema : Schema) :
    FilterFields → PendingOps × CondMap →
    Except ApiError (PendingOps × CondMap)
  | [], st => .ok st
  | (name, es) :: rest, st =>
    match procFilterList schema name es st with
    | .error er => .error er
    | .ok st' => buildConditions schema rest st'

/-- Plan-B grouping-field list of one `max` join: validate each name and
collect it. The source's `if gfield in conditions:` block (pushing filter
conditions into the sub-query, with a nested multiple-aggregations
rejection) is dead code: `conditions` is a dict keyed by peewee `Field`
objects while `gfield` is a string, so the membership test is always
false and no condition is ever pushed. -/
def buildGroupFields (schema : Schema) :
    List String → List String → Except ApiError (List String)
  | [], acc => .ok acc
  | gf :: rest, gfs =>
    if (lookupField schema gf).isSome then
      buildGroupFields schema rest (gfs ++ [gf])
    else .error (.badRequest s!"Invalid group by field: {gf}")

/-- The `for name, ops in pending_ops.items()` loop of the default branch:
one extremum join per pending `max`. Each join carries an (always empty,
see `buildGroupFields`) list of sub-query conditions. -/
def buildJoins (schema : Schema) (conds : CondMap) (pending : PendingOps) :
    Except ApiError (List (String × List String × List Cond)) :=
  pending.foldlM
    (fun acc p =>
      p.2.foldlM
        (fun acc2 ov =>
          if ov.1 = "max" then do
            let gfs ← buildGroupFields schema (splitCSV ov.2) []
            pure (acc2 ++ [(p.1, gfs, ([] : List Cond))])
          else pure acc2)
        acc)
    []

/-- All request-parameter processing of the list endpoint `get()`, in
source order, up to (but not including) running the compiled query. -/
def compileQuery (schema : Schema) (args : List (String × String)) :
    Except ApiError CompiledQuery :=
  match stageFields schema args with
  | .error e => .error e
  | .ok fieldNames =>
  match stageInt args "limit" "50" with
  | .error e => .error e
  | .ok limit =>
  match stageInt args "offset" "0" with
  | .error e => .error e
  | .ok offset =>
  let unique := decide ((getArg args "unique").getD "false" = "true")
  match stageSortedBy schema args with
  | .error e => .error e
  | .ok orderBy =>
  match stageGroupBy schema args with
  | .error e => .error e
  | .ok groupFields =>
  match collectFF schema args [] with
  | .error e => .error e
  | .ok ff =>
  match buildConditions schema ff ([], []) with
  | .error e => .error e
  | .ok st =>
  if groupFields.isEmpty then
    match buildJoins schema st.2 st.1 with
    | .error e => .error e
    | .ok joins =>
      .ok ⟨fieldNames, limit, offset, unique, orderBy, st.2, .planB joins⟩
  else if st.1.isEmpty then
    .ok ⟨fieldNames, limit, offset, unique, orderBy, st.2, .planC groupFields⟩
  else .error (.badRequest "Does not support multiple aggregations")

/-- The response envelope of the list endpoint. -/
structure ListResponse where
  items : List Row
  total : Nat
deriving DecidableEq, Repr

/-- `{k: item[k] for k in field_names}` — a missing key raises `KeyError`. -/
def projectRow (names : List String) (r : Row) : Except ApiError Row :=
  mapE (fun k =>
    match rowGet r k with
    | some v => .ok (k, v)
    | none => .error (.keyError k)) names

/-- Serialize the items (identity in this model: rows are already
dictionaries) and apply the output-field projection when requested. -/
def finalize (fieldNames : List String) (items : List Row) (total : Nat) :
    Except ApiError ListResponse :=
  if fieldNames.isEmpty then .ok ⟨items, total⟩
  else (mapE (projectRow fieldNames) items).map (fun its => ⟨its, total⟩)

/-- The Plan-C join predicate `group_by[0] == subquery.c.gb_c0 & (c1 ==
gb_c1) & ...`: column-wise SQL equality of the grouping columns against
one paged sub-query key. SQL `=` is never true on a NULL operand, so a
row whose grouping key has a NULL component joins nothing. -/
def sqlKeyEq : List (Option Val) → List (Option Val) → Bool
  | [], [] => true
  | a :: as, b :: bs => sqlEq a b && sqlKeyEq as bs
  | _, _ => false

/-- Run a compiled query against the table. Plan C: re-project onto the
grouping columns, group (`GROUP BY` does form a NULL group), page the
*sub-query*, join back on the column-wise SQL-equality predicate, and
report the number of distinct groups as the total. Plan B: join each
pending extremum sub-query (built over the full table) onto the filtered
query, count the joined query, then page the outer query. -/
def execQuery (rows : List Row) (q : CompiledQuery) :
    Except ApiError ListResponse :=
  let filtered := if q.conds.isEmpty then rows
                  else rows.filter (fun r => (q.conds.flatMap (·.2)).all (evalCond r))
  let sorted := if q.orderBy.isEmpty then filtered else sortRows q.orderBy filtered
  let base := if q.unique then firstDedup sorted else sorted
  match q.plan with
  | .planC gfs =>
    let keys := firstDedup (base.map (keyTuple gfs))
    let paged := applyLimitOffset q.limit q.offset keys
    let joined := base.filter (fun r => paged.any (fun k => sqlKeyEq (keyTuple gfs r) k))
    finalize q.fieldNames joined keys.length
  | .planB joins =>
    let joined := joins.foldl
      (fun cur j => cur.filter (planBCond rows j.1 j.2.1 j.2.2)) base
    finalize q.fieldNames (applyLimitOffset q.limit q.offset joined) joined.length

/-- The list endpoint `get()`: compile the request parameters, then run
the query (peewee queries are lazy, so all parameter errors surface
before any row is produced). -/
def listGet (schema : Schema) (rows : List Row)
    (args : List (String × String)) : Except ApiError ListResponse :=
  (compileQuery schema args).bind (execQuery rows)

instance {ε α : Type} [DecidableEq ε] [DecidableEq α] :
    DecidableEq (Except ε α) := fun
  | .ok a, .ok b =>
    if h : a = b then .isTrue (by rw [h])
    else .isFalse (fun hh => by cases hh; exact h rfl)
  | .error e, .error f =>
    if h : e = f then .isTrue (by rw [h])
    else .isFalse (fun hh => by cases hh; exact h rfl)
  | .ok _, .error _ => .isFalse (fun hh => by cases hh)
  | .error _, .ok _ => .isFalse (fun hh => by cases hh)

/-- The example model used throughout: an integer primary key `id`, an
integer grouping column `g` and an integer payload column `value`. -/
def exSchema : Schema := [("id", .tInt), ("g", .tInt), ("value", .tInt)]

def mkRow (i g v : Int) : Row := [("id", .vInt i), ("g", .vInt g), ("value", .vInt v)]

/-- A model with a string-typed column `v` (its deserializer is the
identity on strings) next to integer `id` and `g`. -/
def strSchema : Schema := [("id", .tInt), ("v", .tStr), ("g", .tInt)]

/-- A model with an integer `id` and a string `status` column. -/
def statusSchema : Schema := [("id", .tInt), ("status", .tStr)]

def statusRow (i : Int) (s : String) : Row :=
  [("id", .vInt i), ("status", .vStr s)]

/-- `r` achieves the maximum of column `fname` within its
`gfs`-group of `table`. -/
def isMaxRow (table : List Row) (fname : String) (gfs : List String)
    (r : Row) : Bool :=
  table.all (fun s =>
    decide (keyTuple gfs s ≠ keyTuple gfs r) ||
    valOptLe (rowGet s fname) (rowGet r fname))

/-- The outcome is specifically a `BadRequest` error. -/
def isBadRequestE {α : Type} : Except ApiError α → Bool
  | .error (.badRequest _) => true
  | _ => false

/-- The request completed without raising. -/
def isOkE {ε α : Type} : Except ε α → Bool
  | .ok _ => true
  | .error _ => false

/-- `(op, raw value)` is recorded under base name `b` in the first-pass
filter map. -/
def entryMem (ff : FilterFields) (b : String)
    (e : Option String × String) : Prop :=
  ∃ l, (b, l) ∈ ff ∧ e ∈ l

/-- The request carries a `[max]` or `[min]` operator on some non-reserved
parameter (as the parameter regex parses it). -/
def extremumParam (args : List (String × String)) : Prop :=
  ∃ p ∈ args, p.1 ∉ opFields ∧
    ∃ b o, parseParamName p.1 = some (b, some o) ∧ (o = "max" ∨ o = "min")

/-! ## The gena value codecs (`gena/serializer.py`, `gena/deserializer.py`) -/

/-- Python/JSON runtime values handled by the gena codecs. A naive
`datetime` carries its wall-clock reading as microseconds since the epoch
(Python datetimes have microsecond resolution); floats are modelled as
rationals. -/
inductive PyVal where
  | vInt (n : Int)
  | vBool (b : Bool)
  | vStr (s : String)
  | vFloat (q : Rat)
  | vNone
  | vDateTime (us : Int)
  | vList (xs : List PyVal)

/-- `value is None`. -/
def pyIsNone : PyVal → Bool
  | .vNone => true
  | _ => false

/-- The derivable type descriptors this model covers: the primitive
leaves, `Optional[T]` and `list[T]`. -/
inductive TypeDesc where
  | tdInt
  | tdBool
  | tdStr
  | tdFloat
  | tdNone
  | tdDateTime
  | tdOption (inner : TypeDesc)
  | tdList (inner : TypeDesc)
deriving DecidableEq, Repr

/-- `deserialize_int`: `isinstance(value, int)` is checked first and is
true for Python booleans (bool is a subclass of int), which are returned
unchanged; a string goes through `int(value)`; an integer-valued float is
truncated; everything else raises. -/
def pyDeserializeInt : PyVal → Except String PyVal
  | .vInt n => .ok (.vInt n)
  | .vBool b => .ok (.vBool b)
  | .vStr s =>
    match parsePyInt s with
    | some n => .ok (.vInt n)
    | none => .error s!"invalid literal for int() with base 10: {s}"
  | .vFloat q =>
    if q.den = 1 then .ok (.vInt q.num)
    else .error "expect integer but get: float"
  | _ => .error "expect integer but get: other"

/-- `deserialize_bool`: a native bool, or exactly `"true"`/`"false"`. -/
def pyDeserializeBool : PyVal → Except String PyVal
  | .vBool b => .ok (.vBool b)
  | .vStr s =>
    if s = "true" then .ok (.vBool true)
    else if s = "false" then .ok (.vBool false)
    else .error s!"expect bool string but get: {s}"
  | _ => .error "expect bool value but get: other"

/-- `deserialize_str`. -/
def pyDeserializeStr : PyVal → Except String PyVal
  | .vStr s => .ok (.vStr s)
  | _ => .error "expect string but get: other"

/-- `deserialize_float`: `isinstance(value, (int, float))` — ints,
booleans (bool ≤ int) and floats pass through unchanged; a string goes
through Python `float(value)` (modelled by the external parser `fp`). -/
def pyDeserializeFloat (fp : String → Option Rat) : PyVal → Except String PyVal
  | .vInt n => .ok (.vInt n)
  | .vBool b => .ok (.vBool b)
  | .vFloat q => .ok (.vFloat q)
  | .vStr s =>
    match fp s with
    | some q => .ok (.vFloat q)
    | none => .error s!"could not convert string to float: {s}"
  | _ => .error "expect float but get: other"

/-- `deserialize_none`. -/
def pyDeserializeNone : PyVal → Except String PyVal
  | .vNone => .ok .vNone
  | _ => .error "expect none but get: other"

/-- `deserialize_datetime`: an ISO string is parsed by `dateutil`
(external, modelled by `iso`, yielding the naive reading in microseconds);
an `isinstance(value, int)` value — booleans included — is
`utcfromtimestamp(value / 1000)`, i.e. milliseconds since epoch; anything
else raises. -/
def pyDeserializeDatetime (iso : String → Option Int) :
    PyVal → Except String PyVal
  | .vStr s =>
    match iso s with
    | some us => .ok (.vDateTime us)
    | none => .error s!"expect datetime in iso-format but get: {s}"
  | .vInt ms => .ok (.vDateTime (ms * 1000))
  | .vBool b => .ok (.vDateTime (if b then 1000 else 0))
  | _ => .error "expect a string or timestamp but get: other"

/-- The derived deserializer `get_deserializer_from_type` assigns to each
descriptor (`Optional[T]` takes the union-with-None path
`deserialize_optional_arg`; `list[T]` takes `get_deserialize_list`). -/
def deserializeFor (iso : String → Option Int) (fp : String → Option Rat) :
    TypeDesc → PyVal → Except String PyVal
  | .tdInt, v => pyDeserializeInt v
  | .tdBool, v => pyDeserializeBool v
  | .tdStr, v => pyDeserializeStr v
  | .tdFloat, v => pyDeserializeFloat fp v
  | .tdNone, v => pyDeserializeNone v
  | .tdDateTime, v => pyDeserializeDatetime iso v
  | .tdOption t, v => if pyIsNone v then .ok v else deserializeFor iso fp t v
  | .tdList t, v =>
    match v with
    | .vList l => (mapE (deserializeFor iso fp t) l).map .vList
    | _ => .error "expect list but get: other"

/-- Round-half-even of `n / d` for a positive divisor `d` — the semantics
of Python `round()` applied to the exact rational `n / d`. -/
def rheDiv (n d : Int) : Int :=
  let q := n.ediv d
  let r := n.emod d
  if 2 * r < d then q
  else if 2 * r > d then q + 1
  else if q.emod 2 = 0 then q else q + 1

/-- `datetime_serializer`: `round(value.timestamp() * 1000)` with `None`
passed through. `timestamp()` interprets the naive datetime in the
process's local timezone, modelled by the offset `tzOff` (seconds east of
UTC): the epoch reading is the wall-clock reading shifted by the offset. -/
def pyDatetimeSerializer (tzOff : Int) : PyVal → PyVal
  | .vNone => .vNone
  | .vDateTime us => .vInt (rheDiv (us - tzOff * 1000000) 1000)
  | v => v

/-- `get_serializer_from_type`: `None` means "no transformation needed"
(identity); datetime uses `datetime_serializer`; `Optional[T]` is the
union path of `get_serialize_union` (identity when every alternative is
a no-op, otherwise None-guarded dispatch); `list[T]` is
`get_serialize_sequence` (identity when the element serializer is a
no-op, with a None guard). The fallthrough cases of the wrapped closures
are unreachable for well-typed values (the source would raise there). -/
def serializerFor (tzOff : Int) : TypeDesc → Option (PyVal → PyVal)
  | .tdInt | .tdBool | .tdStr | .tdFloat | .tdNone => none
  | .tdDateTime => some (pyDatetimeSerializer tzOff)
  | .tdOption t =>
    match serializerFor tzOff t with
    | none => none
    | some f => some (fun v => if pyIsNone v then .vNone else f v)
  | .tdList t =>
    match serializerFor tzOff t with
    | none => none
    | some f => some (fun v =>
        if pyIsNone v then .vNone
        else match v with
          | .vList l => .vList (l.map f)
          | w => w)

/-- Apply a derived serializer; `none` records "no-op" explicitly and the
caller skips the call. -/
def applySer (s : Option (PyVal → PyVal)) (v : PyVal) : PyVal :=
  match s with
  | none => v
  | some f => f v

/-- The value belongs to the descriptor's type. -/
def wellTypedB : TypeDesc → PyVal → Bool
  | .tdInt, .vInt _ => true
  | .tdBool, .vBool _ => true
  | .tdStr, .vStr _ => true
  | .tdFloat, .vFloat _ => true
  | .tdNone, .vNone => true
  | .tdDateTime, .vDateTime _ => true
  | .tdOption _, .vNone => true
  | .tdOption t, v => wellTypedB t v
  | .tdList t, .vList l => l.all (fun x => wellTypedB t x)
  | _, _ => false

/-- The descriptor contains no DateTime leaf. -/
def dtFree : TypeDesc → Bool
  | .tdDateTime => false
  | .tdOption t => dtFree t
  | .tdList t => dtFree t
  | _ => true

/-- A fixed instantiation of the external ISO-8601 parser (its behavior is
irrelevant to the claims: the serializer never emits strings). -/
def iso0 : String → Option Int := fun _ => none

/-- A fixed instantiation of the external Python `float()` parser. -/
def fp0 : String → Option Rat := fun _ => none

/-! ## The create endpoint (`api_generator.py::create`) -/

def lookupPy (m : List (String × PyVal)) (k : String) : Option PyVal :=
  (m.find? (fun p => p.1 = k)).map (·.2)

/-- `raw_record.pop("id")`. -/
def removeKey (m : List (String × PyVal)) (k : String) :
    List (String × PyVal) :=
  m.filter (fun p => ¬ p.1 = k)

/-- The deserialization loop of `create`: for each model field present in
the posted body, deserialize it (wrapping a `ValueError` with the field
name); absent fields are skipped. -/
def buildRaw (iso : String → Option Int) (fp : String → Option Rat)
    (schema : List (String × TypeDesc)) (posted : List (String × PyVal)) :
    Except ApiError (List (String × PyVal)) :=
  match schema with
  | [] => .ok []
  | (name, ty) :: rest =>
    match lookupPy posted name with
    | none => buildRaw iso fp rest posted
    | some v =>
      match deserializeFor iso fp ty v with
      | .error e => .error (.valueError s!"Field `{name}` {e}")
      | .ok w =>
        match buildRaw iso fp rest posted with
        | .error e => .error e
        | .ok raw => .ok ((name, w) :: raw)

/-- The create endpoint: deserialize the posted fields, silently drop a
client-supplied `id` ("remove id as this API always creates a new
record"), insert, and return the serialized new record whose identifier
the store assigned (`freshId`). -/
def createEndpoint (iso : String → Option Int) (fp : String → Option Rat)
    (schema : List (String × TypeDesc)) (posted : List (String × PyVal))
    (freshId : Int) : Except ApiError (List (String × PyVal)) :=
  match buildRaw iso fp schema posted with
  | .error e => .error e
  | .ok raw =>
    let raw2 := if (lookupPy raw "id").isSome then removeKey raw "id" else raw
    .ok (("id", .vInt freshId) :: raw2)

/-! ## Recursive dataclass derivation (`get_dataclass_deserializer`) -/

/-- Field type annotations relevant to deserializer derivation; a
`fsDataclass cid` field references (possibly recursively) the dataclass
declared at index `cid`. -/
inductive FieldSpec where
  | fsInt
  | fsStr
  | fsBool
  | fsFloat
  | fsOptional (inner : FieldSpec)
  | fsList (inner : FieldSpec)
  | fsDataclass (cid : Nat)
  | fsUnsupported
deriving DecidableEq, Repr

/-- The universe of dataclass declarations: index `cid` holds that
dataclass's ordered field list. -/
abbrev DcEnv := List (List (String × FieldSpec))

/-- The derived deserializer a derivation step returns. The closure
`deserialize_dataclass` created for class `cid` is identified by `cid`:
its behavior is a function of the class and of the registry it closes
over, so object identity is class identity. -/
inductive DeserRepr where
  | dInt
  | dStr
  | dBool
  | dFloat
  | dNullable (inner : DeserRepr)
  | dListOf (inner : DeserRepr)
  | dDataclass (cid : Nat)
deriving DecidableEq, Repr

inductive DeriveErr where
  | noDeserializer
  | fuelExhausted
deriving DecidableEq, Repr

/-- `known_type_deserializers`: the codec registry keyed by class id. -/
abbrev Registry := List (Nat × DeserRepr)

def regLookup (reg : Registry) (c : Nat) : Option DeserRepr :=
  (reg.find? (fun p => p.1 = c)).map (·.2)

/-- `known_type_deserializers[CLS] = ...` — Python dict assignment:
overwrite in place, or append a new key. -/
def regInsert : Registry → Nat → DeserRepr → Registry
  | [], c, d => [(c, d)]
  | p :: rest, c, d =>
    if p.1 = c then (c, d) :: rest else p :: regInsert rest c d

mutual
/-- `get_deserializer_from_type`, restricted to the cases that matter for
recursive derivation: the registry is consulted first, and a dataclass
field whose class is not yet registered is derived on the spot. `fuel`
bounds the Python call-stack depth (the source has no bound; the claim
shows the bound is never reached once the fuel exceeds the number of
unregistered classes). -/
def getFromType (env : DcEnv) : Nat → FieldSpec → Registry →
    Except DeriveErr (DeserRepr × Registry)
  | _, .fsInt, reg => .ok (.dInt, reg)
  | _, .fsStr, reg => .ok (.dStr, reg)
  | _, .fsBool, reg => .ok (.dBool, reg)
  | _, .fsFloat, reg => .ok (.dFloat, reg)
  | fuel, .fsOptional t, reg =>
    match getFromType env fuel t reg with
    | .error e => .error e
    | .ok dr => .ok (.dNullable dr.1, dr.2)
  | fuel, .fsList t, reg =>
    match getFromType env fuel t reg with
    | .error e => .error e
    | .ok dr => .ok (.dListOf dr.1, dr.2)
  | fuel, .fsDataclass c, reg =>
    match regLookup reg c with
    | some d => .ok (d, reg)
    | none => deriveDataclass env fuel c reg
  | _, .fsUnsupported, _ => .error .noDeserializer
termination_by fuel t reg => (fuel, 1, sizeOf t)

/-- `get_dataclass_deserializer(CLS, known_type_deserializers)`: the
forward stub for `CLS` is registered *before* descending into the
fields; then every field deserializer is derived (threading the
registry); the function returns the same `deserialize_dataclass` closure
the stub denotes. -/
def deriveDataclass (env : DcEnv) (fuel : Nat) (c : Nat) (reg : Registry) :
    Except DeriveErr (DeserRepr × Registry) :=
  match env.get? c with
  | none => .error .noDeserializer
  | some flds =>
    match fuel with
    | 0 => .error .fuelExhausted
    | k + 1 =>
      match goFields env k (regInsert reg c (.dDataclass c)) flds with
      | .error e => .error e
      | .ok reg' => .ok (.dDataclass c, reg')
termination_by (fuel, 0, 0)

/-- The `for field in fields(CLS)` loop of `get_dataclass_deserializer`. -/
def goFields (env : DcEnv) : Nat → Registry → List (String × FieldSpec) →
    Except DeriveErr Registry
  | _, reg, [] => .ok reg
  | fuel, reg, (_, ft) :: rest =>
    match getFromType env fuel ft reg with
    | .error e => .error e
    | .ok dr => goFields env fuel dr.2 rest
termination_by fuel reg flds => (fuel, 2, sizeOf flds)
end

/-- The number of declared classes not yet in the registry. -/
def unregCount (env : DcEnv) (reg : Registry) : Nat :=
  ((List.range env.length).filter (fun i => (regLookup reg i).isNone)).length

/-! ## Lemmas -/

theorem splitCSV_ne_nil (s : String) : splitCSV s ≠ [] := by
  unfold splitCSV
  simp only [ne_eq, List.map_eq_nil_iff]
  induction s.toList with
  | nil => simp
  | cons c cs ih =>
    simp only [List.foldr_cons]
    rcases h : cs.foldr _ [[]] with _ | ⟨h', t'⟩
    · exact absurd h ih
    · dsimp only; split <;> simp

theorem valLe_total (a b : Val) : valLe a b ∨ valLe b a := by
  cases a <;> cases b <;> simp only [valLe, decide_eq_true_eq] <;>
    first
    | exact Or.inl rfl
    | exact Or.inl trivial
    | exact Int.le_total _ _
    | exact le_total _ _
    | (rename_i x y; cases x <;> cases y <;> simp)

theorem valOptLe_refl (a : Option Val) : valOptLe a a := by
  cases a with
  | none => rfl
  | some v => cases v <;> simp [valOptLe, valLe]

theorem valOptLe_total (a b : Option Val) : valOptLe a b ∨ valOptLe b a := by
  cases a with
  | none => left; rfl
  | some x =>
    cases b with
    | none => right; rfl
    | some y => exact valLe_total x y

theorem valLe_trans {a b c : Val} : valLe a b → valLe b c → valLe a c := by
  cases a <;> cases b <;> cases c <;> simp only [valLe, decide_eq_true_eq] <;>
    intro h1 h2 <;>
    first
    | trivial
    | exact h1
    | exact h2
    | exact le_trans h1 h2
    | (rename_i x y z; cases x <;> cases y <;> cases z <;> simp_all)
    | (rename_i x y; cases x <;> cases y <;> simp_all)

theorem valOptLe_trans {a b c : Option Val} :
    valOptLe a b → valOptLe b c → valOptLe a c := by
  cases a <;> cases b <;> cases c <;> simp only [valOptLe] <;>
    first
    | (intro h1 h2; trivial)
    | (intro h1 h2; exact h1.elim)
    | (intro h1 h2; exact h2.elim)
    | exact fun h1 h2 => valLe_trans h1 h2

theorem mem_firstDedupAux [DecidableEq α] (seen l : List α) (x : α) :
    x ∈ firstDedupAux seen l ↔ x ∈ l ∧ x ∉ seen := by
  induction l generalizing seen with
  | nil => simp [firstDedupAux]
  | cons a l ih =>
    by_cases ha : a ∈ seen
    · rw [firstDedupAux, if_pos ha, ih]
      constructor
      · rintro ⟨hx, hs⟩; exact ⟨List.mem_cons_of_mem _ hx, hs⟩
      · rintro ⟨hx, hs⟩
        rcases List.mem_cons.mp hx with rfl | hx
        · exact absurd ha hs
        · exact ⟨hx, hs⟩
    · rw [firstDedupAux, if_neg ha]
      constructor
      · intro hmem
        rcases List.mem_cons.mp hmem with rfl | hmem
        · exact ⟨List.mem_cons_self _ _, ha⟩
        · obtain ⟨hx, hs⟩ := (ih (a :: seen)).mp hmem
          exact ⟨List.mem_cons_of_mem _ hx,
            fun h => hs (List.mem_cons_of_mem _ h)⟩
      · rintro ⟨hx, hs⟩
        rcases List.mem_cons.mp hx with rfl | hx
        · exact List.mem_cons_self _ _
        · by_cases hxa : x = a
          · exact hxa ▸ List.mem_cons_self _ _
          · refine List.mem_cons_of_mem _ ((ih (a :: seen)).mpr ⟨hx, ?_⟩)
            intro hmem
            rcases List.mem_cons.mp hmem with h | h
            · exact hxa h
            · exact hs h

theorem mem_firstDedup [DecidableEq α] (l : List α) (x : α) :
    x ∈ firstDedup l ↔ x ∈ l := by
  simp [firstDedup, mem_firstDedupAux]

theorem nodup_firstDedupAux [DecidableEq α] (seen l : List α) :
    (firstDedupAux seen l).Nodup := by
  induction l generalizing seen with
  | nil => exact List.nodup_nil
  | cons a l ih =>
    by_cases ha : a ∈ seen
    · simpa [firstDedupAux, if_pos ha] using ih seen
    · simp only [firstDedupAux, if_neg ha, List.nodup_cons]
      refine ⟨fun hmem => ?_, ih (a :: seen)⟩
      exact ((mem_firstDedupAux _ _ _).mp hmem).2 (List.mem_cons_self a seen)

theorem nodup_firstDedup [DecidableEq α] (l : List α) : (firstDedup l).Nodup :=
  nodup_firstDedupAux [] l

example : splitCSV "a,b" = ["a", "b"] := by rfl
example : splitCSV "" = [""] := by rfl
example : parsePyInt "50" = some 50 := by rfl
example : parsePyInt "-3" = some (-3) := by rfl
example : parsePyInt "g" = none := by rfl
example : parsePyInt "1_0" = some 10 := by rfl
example : parsePyInt "_1" = none := by rfl
example : parsePyInt "1_" = none := by rfl
example : parsePyInt "1__0" = none := by rfl
example : parseParamName "value[max]" = some ("value", some "max") := by rfl
example : parseParamName "value[gt" = some ("value", none) := by rfl
example : parseParamName "value[in]x" = some ("value", some "in") := by rfl
example : parseParamName "[gt]" = none := by rfl
example : parseParamName "status" = some ("status", none) := by rfl

example :
    listGet exSchema [mkRow 1 1 3, mkRow 2 1 5, mkRow 3 2 1]
      [("value[max]", "g")] =
    .ok ⟨[mkRow 2 1 5, mkRow 3 2 1], 2⟩ := by decide

/-! ## Claim C4 -/

/-- Claim C4: contrary to the spec (and to the endpoint's own docstring,
which lists `min` as a supported complex condition), `field[min]=...` is
not part of the accepted grammar: on a string-typed field `v` (whose
deserializer accepts the raw value) the request `v[min]=g` is rejected
with the unsupported-operator bad request `Does not support min yet`
instead of selecting the per-group minimum row. -/
theorem claim4_min_is_rejected :
    listGet strSchema [] [("v[min]", "g")] =
      .error (.badRequest "Does not support min yet") := by decide

/-! ## Claim counterexamples (C1, C2, C7) -/

/-- Counterexample to claim C1 as stated: with two rows tied for the
per-group maximum (`{(id=1,g=1,v=5),(id=2,g=1,v=5)}`), the join on
(primary key, extremum value) equality returns only the sub-query's one
representative row per group, not every row achieving the maximum: row 2
also achieves the maximum of its group but is absent from the items. -/
theorem claim1_counterexample :
    listGet exSchema [mkRow 1 1 5, mkRow 2 1 5] [("value[max]", "g")] =
      .ok ⟨[mkRow 1 1 5], 1⟩ ∧
    isMaxRow [mkRow 1 1 5, mkRow 2 1 5] "value" ["g"] (mkRow 2 1 5) = true ∧
    (mkRow 2 1 5 ∈ [mkRow 1 1 5]) = False := by decide

/-- Counterexample to claim C2 as stated: a request with both `group_by=g`
and `value[min]=g` on the integer field `value` is not rejected with a
bad-request error — deserializing the raw value `g` with the field's
integer deserializer raises an uncaught `ValueError` (an internal server
error) before the aggregation check is reached. -/
theorem claim2_counterexample :
    listGet exSchema [] [("group_by", "g"), ("value[min]", "g")] =
      .error (.valueError "invalid literal for int() with base 10: g") ∧
    isBadRequestE (listGet exSchema []
      [("group_by", "g"), ("value[min]", "g")]) = false := by decide

/-- Counterexample to claim C7 as stated: the parameter name `value[gt`
(missing the closing bracket) parses under neither the bare-name nor the
`name[op]` grammar, yet the endpoint does not reject it: `re.match`
anchors only at the start, so the name is silently misparsed as the bare
field `value` and treated as an equality filter — the request succeeds
and returns the row with `value = 5` (not the rows with `value > 5`). -/
theorem claim7_counterexample :
    listGet exSchema [mkRow 1 1 5, mkRow 2 1 7] [("value[gt", "5")] =
      .ok ⟨[mkRow 1 1 5], 1⟩ := by decide

theorem exists_max_val {α : Type} (f : α → Option Val) (l : List α)
    (h : l ≠ []) : ∃ m ∈ l, ∀ s ∈ l, valOptLe (f s) (f m) = true := by
  induction l with
  | nil => exact absurd rfl h
  | cons x l ih =>
    rcases eq_or_ne l [] with rfl | hl
    · refine ⟨x, List.mem_cons_self _ _, ?_⟩
      intro s hs
      rcases List.mem_cons.mp hs with rfl | hs
      · exact valOptLe_refl _
      · cases hs
    · obtain ⟨m, hm, hmax⟩ := ih hl
      rcases valOptLe_total (f x) (f m) with hxm | hmx
      · refine ⟨m, List.mem_cons_of_mem _ hm, ?_⟩
        intro s hs
        rcases List.mem_cons.mp hs with rfl | hs
        · exact hxm
        · exact hmax s hs
      · refine ⟨x, List.mem_cons_self _ _, ?_⟩
        intro s hs
        rcases List.mem_cons.mp hs with rfl | hs
        · exact valOptLe_refl _
        · exact valOptLe_trans (hmax s hs) hmx

theorem maxRowOf_spec {fname : String} {l : List Row} {m : Row}
    (h : maxRowOf fname l = some m) :
    m ∈ l ∧ ∀ s ∈ l, valOptLe (rowGet s fname) (rowGet m fname) = true := by
  refine ⟨List.mem_of_find?_eq_some h, ?_⟩
  have hp := List.find?_some h
  rw [List.all_eq_true] at hp
  exact hp

theorem maxRowOf_isSome {fname : String} {l : List Row} (h : l ≠ []) :
    (maxRowOf fname l).isSome := by
  obtain ⟨m, hm, hmax⟩ := exists_max_val (fun r => rowGet r fname) l h
  rw [maxRowOf, List.find?_isSome]
  refine ⟨m, hm, ?_⟩
  rw [List.all_eq_true]
  exact hmax

theorem isMaxRow_iff {table : List Row} {fname : String} {gfs : List String}
    {r : Row} :
    isMaxRow table fname gfs r = true ↔
      ∀ s ∈ table, keyTuple gfs s = keyTuple gfs r →
        valOptLe (rowGet s fname) (rowGet r fname) = true := by
  simp only [isMaxRow, List.all_eq_true, Bool.or_eq_true, decide_eq_true_eq,
    ne_eq]
  constructor
  · intro h s hs hk
    rcases h s hs with h' | h'
    · exact absurd hk h'
    · exact h'
  · intro h s hs
    by_cases hk : keyTuple gfs s = keyTuple gfs r
    · exact Or.inr (h s hs hk)
    · exact Or.inl hk

theorem planBSubTable_mem {rows : List Row} {fname : String}
    {gfs : List String} {rep : Row}
    (h : rep ∈ planBSubTable rows fname gfs []) :
    rep ∈ rows ∧ isMaxRow rows fname gfs rep = true := by
  rw [planBSubTable] at h
  simp only [List.isEmpty_nil, if_pos] at h
  rw [List.mem_filterMap] at h
  obtain ⟨k, hk, hmax⟩ := h
  obtain ⟨hrepmem, hrepmax⟩ := maxRowOf_spec hmax
  rw [List.mem_filter] at hrepmem
  obtain ⟨hreprows, hrepkey⟩ := hrepmem
  rw [decide_eq_true_eq] at hrepkey
  refine ⟨hreprows, isMaxRow_iff.mpr ?_⟩
  intro s hs hkey
  refine hrepmax s ?_
  rw [List.mem_filter, decide_eq_true_eq]
  exact ⟨hs, hkey.trans hrepkey⟩

theorem planBSubTable_complete {rows : List Row} {fname : String}
    {gfs : List String} {r : Row}
    (huniq : ∀ a ∈ rows, ∀ b ∈ rows, keyTuple gfs a = keyTuple gfs b →
      isMaxRow rows fname gfs a = true → isMaxRow rows fname gfs b = true →
      a = b)
    (hr : r ∈ rows) (hmaxr : isMaxRow rows fname gfs r = true) :
    r ∈ planBSubTable rows fname gfs [] := by
  rw [planBSubTable]
  simp only [List.isEmpty_nil, if_pos]
  rw [List.mem_filterMap]
  refine ⟨keyTuple gfs r, ?_, ?_⟩
  · rw [mem_firstDedup, List.mem_map]
    exact ⟨r, hr, rfl⟩
  · have hrgrp : r ∈ rows.filter
        (fun s => decide (keyTuple gfs s = keyTuple gfs r)) := by
      rw [List.mem_filter, decide_eq_true_eq]
      exact ⟨hr, rfl⟩
    have hne : rows.filter
        (fun s => decide (keyTuple gfs s = keyTuple gfs r)) ≠ [] :=
      List.ne_nil_of_mem hrgrp
    obtain ⟨m, hmeq⟩ := Option.isSome_iff_exists.mp (maxRowOf_isSome hne)
    obtain ⟨hmmem, hmmax⟩ := maxRowOf_spec hmeq
    rw [List.mem_filter, decide_eq_true_eq] at hmmem
    obtain ⟨hmrows, hmkey⟩ := hmmem
    have hmaxm : isMaxRow rows fname gfs m = true := by
      rw [isMaxRow_iff]
      intro s hs hkey
      refine hmmax s ?_
      rw [List.mem_filter, decide_eq_true_eq]
      exact ⟨hs, hkey.trans hmkey⟩
    have : r = m := huniq r hr m hmrows hmkey.symm hmaxr hmaxm
    rw [← this] at hmeq
    exact hmeq

theorem sqlEq_true {a b : Option Val} (h : sqlEq a b = true) :
    ∃ x, a = some x ∧ b = some x := by
  cases a with
  | none => cases h
  | some x =>
    cases b with
    | none => cases h
    | some y =>
      rw [sqlEq, decide_eq_true_eq] at h
      exact ⟨x, rfl, by rw [h]⟩

theorem planBCond_eq_isMaxRow {rows : List Row} {fname : String}
    {gfs : List String}
    (hid : ∀ a ∈ rows, (rowGet a "id").isSome = true)
    (hinj : ∀ a ∈ rows, ∀ b ∈ rows, rowGet a "id" = rowGet b "id" → a = b)
    (hval : ∀ a ∈ rows, (rowGet a fname).isSome = true)
    (huniq : ∀ a ∈ rows, ∀ b ∈ rows, keyTuple gfs a = keyTuple gfs b →
      isMaxRow rows fname gfs a = true → isMaxRow rows fname gfs b = true →
      a = b)
    {r : Row} (hr : r ∈ rows) :
    planBCond rows fname gfs [] r = isMaxRow rows fname gfs r := by
  rcases hmx : isMaxRow rows fname gfs r with _ | _
  · -- r is not a group maximum: no sub-table entry can match it
    rw [planBCond]
    rw [List.any_eq_false]
    intro rep hrep
    obtain ⟨hreprows, hrepmax⟩ := planBSubTable_mem hrep
    intro hconj
    rw [Bool.and_eq_true] at hconj
    obtain ⟨hids, _⟩ := hconj
    obtain ⟨x, hx1, hx2⟩ := sqlEq_true hids
    have : r = rep := hinj r hr rep hreprows (by rw [hx1, hx2])
    rw [this, hrepmax] at hmx
    cases hmx
  · -- r is a group maximum: it is its own sub-table entry
    rw [planBCond, List.any_eq_true]
    refine ⟨r, planBSubTable_complete huniq hr hmx, ?_⟩
    obtain ⟨i, hi⟩ := Option.isSome_iff_exists.mp (hid r hr)
    obtain ⟨v, hv⟩ := Option.isSome_iff_exists.mp (hval r hr)
    show (sqlEq (rowGet r "id") (rowGet r "id") &&
          sqlEq (rowGet r fname) (rowGet r fname)) = true
    rw [hi, hv]
    simp [sqlEq]

theorem planB_filter_eq {rows : List Row} {fname : String} {gfs : List String}
    (hid : ∀ a ∈ rows, (rowGet a "id").isSome = true)
    (hinj : ∀ a ∈ rows, ∀ b ∈ rows, rowGet a "id" = rowGet b "id" → a = b)
    (hval : ∀ a ∈ rows, (rowGet a fname).isSome = true)
    (huniq : ∀ a ∈ rows, ∀ b ∈ rows, keyTuple gfs a = keyTuple gfs b →
      isMaxRow rows fname gfs a = true → isMaxRow rows fname gfs b = true →
      a = b) :
    rows.filter (planBCond rows fname gfs []) =
      rows.filter (isMaxRow rows fname gfs) :=
  List.filter_congr (fun r hr => planBCond_eq_isMaxRow hid hinj hval huniq hr)

theorem applyLimitOffset_all {α : Type} (n : Nat) (l : List α)
    (h : l.length ≤ n) : applyLimitOffset (n : Int) 0 l = l := by
  rw [applyLimitOffset]
  simp only [Int.toNat_zero, List.drop_zero]
  rw [if_neg (by omega)]
  rw [Int.toNat_natCast]
  exact List.take_of_length_le h

/-! ## Claim C1 -/

/-- Claim C1 (amended): joining the main query to the grouped sub-query on
(primary key, extremum value) equality selects, per group, the single
sub-query representative row — which always achieves the per-group
maximum of the target field. When the maximum is uniquely achieved in
every group (as in the claim's example, where ids are distinct and the
target field is non-null) the returned item set is therefore exactly the
set of rows achieving the per-group maximum, and the example
`value[max]=g` over `{(g=1,v=3),(g=1,v=5),(g=2,v=1)}` returns exactly
`{(g=1,v=5),(g=2,v=1)}`; with ties, only one of the tied rows is
returned (see the counterexample). -/
theorem claim1_extremum_amended (rows : List Row)
    (hid : ∀ a ∈ rows, (rowGet a "id").isSome = true)
    (hinj : ∀ a ∈ rows, ∀ b ∈ rows, rowGet a "id" = rowGet b "id" → a = b)
    (hval : ∀ a ∈ rows, (rowGet a "value").isSome = true)
    (huniq : ∀ a ∈ rows, ∀ b ∈ rows, keyTuple ["g"] a = keyTuple ["g"] b →
      isMaxRow rows "value" ["g"] a = true →
      isMaxRow rows "value" ["g"] b = true → a = b)
    (hlen : rows.length ≤ 50) :
    listGet exSchema rows [("value[max]", "g")] =
      .ok ⟨rows.filter (isMaxRow rows "value" ["g"]),
           (rows.filter (isMaxRow rows "value" ["g"])).length⟩ := by
  have hc : compileQuery exSchema [("value[max]", "g")] =
      .ok ⟨[], 50, 0, false, [], [], .planB [("value", ["g"], [])]⟩ := by
    decide
  unfold listGet
  rw [hc]
  show execQuery rows
    ⟨[], 50, 0, false, [], [], .planB [("value", ["g"], [])]⟩ = _
  rw [execQuery]
  simp only [List.isEmpty_nil, if_pos, List.foldl_cons, List.foldl_nil,
    Bool.false_eq_true, if_false]
  rw [planB_filter_eq hid hinj hval huniq]
  have h50 : ((50 : Nat) : Int) = (50 : Int) := by norm_num
  rw [← h50,
    applyLimitOffset_all 50 _
      (le_trans (List.length_filter_le _ _) hlen)]
  rw [finalize]
  simp

/-- Witness for claim C1: the spec's example instance — rows
`{(id=1,g=1,v=3),(id=2,g=1,v=5),(id=3,g=2,v=1)}` satisfy every hypothesis
and `value[max]=g` returns exactly `{(g=1,v=5),(g=2,v=1)}` with total 2. -/
theorem claim1_witness :
    listGet exSchema [mkRow 1 1 3, mkRow 2 1 5, mkRow 3 2 1]
      [("value[max]", "g")] =
      .ok ⟨[mkRow 2 1 5, mkRow 3 2 1], 2⟩ := by
  have h := claim1_extremum_amended [mkRow 1 1 3, mkRow 2 1 5, mkRow 3 2 1]
    (by decide) (by decide) (by decide) (by decide) (by decide)
  exact h.trans (by decide)

/-! ## Claim C3 -/

theorem stageInt_of {args : List (String × String)} {k s : String}
    {n : Int} (d : String) (h1 : getArg args k = some s)
    (h2 : parsePyInt s = some n) : stageInt args k d = .ok n := by
  rw [stageInt, h1]
  simp only [Option.getD_some, h2]

theorem applyLimitOffset_length_le {α : Type} (L O : Nat) (l : List α) :
    (applyLimitOffset (L : Int) (O : Int) l).length ≤ L := by
  rw [applyLimitOffset]
  rw [if_neg (by omega)]
  calc ((l.drop (O : Int).toNat).take (L : Int).toNat).length
      ≤ (L : Int).toNat := List.length_take_le _ _
    _ = L := Int.toNat_natCast L

theorem sqlKeyEq_spec {xs ys : List (Option Val)} (h : sqlKeyEq xs ys = true) :
    xs = ys ∧ xs.all Option.isSome = true := by
  induction xs generalizing ys with
  | nil =>
    cases ys with
    | nil => exact ⟨rfl, rfl⟩
    | cons b bs => simp [sqlKeyEq] at h
  | cons a as ih =>
    cases ys with
    | nil => simp [sqlKeyEq] at h
    | cons b bs =>
      simp only [sqlKeyEq, Bool.and_eq_true] at h
      obtain ⟨x, hx1, hx2⟩ := sqlEq_true h.1
      obtain ⟨heq, hall⟩ := ih h.2
      refine ⟨by rw [hx1, hx2, heq], ?_⟩
      rw [List.all_cons, hall, hx1]
      rfl

theorem sqlKeyEq_refl {xs : List (Option Val)}
    (h : xs.all Option.isSome = true) : sqlKeyEq xs xs = true := by
  induction xs with
  | nil => rfl
  | cons a as ih =>
    rw [List.all_cons, Bool.and_eq_true] at h
    cases a with
    | none => simp at h
    | some x =>
      simp only [sqlKeyEq, Bool.and_eq_true]
      exact ⟨by simp [sqlEq], ih h.2⟩

/-- The Plan-C join fires exactly on rows with a NULL-free grouping key
that literally occurs among the paged sub-query keys. -/
theorem sqlKeyEq_any_eq (paged : List (List (Option Val)))
    (key : List (Option Val)) :
    paged.any (fun k => sqlKeyEq key k) =
      (key.all Option.isSome && decide (key ∈ paged)) := by
  rw [Bool.eq_iff_iff, List.any_eq_true, Bool.and_eq_true, decide_eq_true_eq]
  constructor
  · rintro ⟨k, hk, hkey⟩
    obtain ⟨heq, hall⟩ := sqlKeyEq_spec hkey
    exact ⟨hall, by rw [heq]; exact hk⟩
  · rintro ⟨hall, hmem⟩
    exact ⟨key, hmem, sqlKeyEq_refl hall⟩

/-- Claim C3: in the `group_by=g` plan the limit/offset is applied to the
grouping sub-query, the joined outer query is not paged, and the reported
total is the number of distinct groups of the filtered set (`GROUP BY`
forms a group for a NULL key, so it is counted in the total): the
response items are exactly the rows whose NULL-free group key falls in
the paged group list (the SQL join predicate never matches a NULL key),
the total is the distinct-group count, and at most `L` distinct groups
appear among the returned rows. -/
theorem claim3_planC_paging (rows : List Row) (L O : Nat) (sL sO : String)
    (hL : parsePyInt sL = some (L : Int))
    (hO : parsePyInt sO = some (O : Int)) :
    listGet exSchema rows [("group_by", "g"), ("limit", sL), ("offset", sO)] =
      .ok ⟨rows.filter (fun r => (keyTuple ["g"] r).all Option.isSome &&
              decide (keyTuple ["g"] r ∈
                applyLimitOffset (L : Int) (O : Int)
                  (firstDedup (rows.map (keyTuple ["g"]))))),
           (firstDedup (rows.map (keyTuple ["g"]))).length⟩ ∧
    (firstDedup ((rows.filter (fun r =>
        (keyTuple ["g"] r).all Option.isSome &&
        decide (keyTuple ["g"] r ∈
          applyLimitOffset (L : Int) (O : Int)
            (firstDedup (rows.map (keyTuple ["g"])))))).map
        (keyTuple ["g"]))).length ≤ L := by
  set args := [("group_by", "g"), ("limit", sL), ("offset", sO)] with hargs
  have hlim : stageInt args "limit" "50" = .ok (L : Int) :=
    stageInt_of _ rfl hL
  have hoff : stageInt args "offset" "0" = .ok (O : Int) :=
    stageInt_of _ rfl hO
  have hcomp : compileQuery exSchema args =
      .ok ⟨[], (L : Int), (O : Int), false, [], [], .planC ["g"]⟩ := by
    rw [compileQuery, hlim, hoff]
    rfl
  constructor
  · unfold listGet
    rw [hcomp]
    show execQuery rows
      ⟨[], (L : Int), (O : Int), false, [], [], .planC ["g"]⟩ = _
    rw [execQuery]
    simp only [List.isEmpty_nil, if_pos, Bool.false_eq_true, if_false]
    have hfe : rows.filter (fun r =>
        (applyLimitOffset (L : Int) (O : Int)
          (firstDedup (rows.map (keyTuple ["g"])))).any
          (fun k => sqlKeyEq (keyTuple ["g"] r) k)) =
        rows.filter (fun r => (keyTuple ["g"] r).all Option.isSome &&
          decide (keyTuple ["g"] r ∈
            applyLimitOffset (L : Int) (O : Int)
              (firstDedup (rows.map (keyTuple ["g"]))))) :=
      List.filter_congr (fun r _ => sqlKeyEq_any_eq _ _)
    rw [hfe, finalize]
    simp
  · -- at most L distinct groups survive the join against the paged groups
    set paged := applyLimitOffset (L : Int) (O : Int)
      (firstDedup (rows.map (keyTuple ["g"]))) with hpaged
    set items := rows.filter
      (fun r => (keyTuple ["g"] r).all Option.isSome &&
        decide (keyTuple ["g"] r ∈ paged)) with hitems
    have hsub : firstDedup (items.map (keyTuple ["g"])) ⊆ paged := by
      intro x hx
      rw [mem_firstDedup, List.mem_map] at hx
      obtain ⟨r, hr, hkr⟩ := hx
      rw [hitems, List.mem_filter, Bool.and_eq_true, decide_eq_true_eq] at hr
      rw [← hkr]
      exact hr.2.2
    calc (firstDedup (items.map (keyTuple ["g"]))).length
        ≤ paged.length :=
          (List.subperm_of_subset (nodup_firstDedup _) hsub).length_le
      _ ≤ L := applyLimitOffset_length_le L O _

/-- Witness for claim C3: ten rows falling into three distinct groups,
queried with `group_by=g&limit=2`, give total `3` while only the first
two groups' rows are surfaced. -/
theorem claim3_witness :
    listGet exSchema
      [mkRow 1 1 0, mkRow 2 1 0, mkRow 3 1 0, mkRow 4 1 0, mkRow 5 2 0,
       mkRow 6 2 0, mkRow 7 2 0, mkRow 8 3 0, mkRow 9 3 0, mkRow 10 3 0]
      [("group_by", "g"), ("limit", "2"), ("offset", "0")] =
      .ok ⟨[mkRow 1 1 0, mkRow 2 1 0, mkRow 3 1 0, mkRow 4 1 0, mkRow 5 2 0,
            mkRow 6 2 0, mkRow 7 2 0], 3⟩ := by
  have h := (claim3_planC_paging
    [mkRow 1 1 0, mkRow 2 1 0, mkRow 3 1 0, mkRow 4 1 0, mkRow 5 2 0,
     mkRow 6 2 0, mkRow 7 2 0, mkRow 8 3 0, mkRow 9 3 0, mkRow 10 3 0]
    2 0 "2" "0" (by decide) (by decide)).1
  exact h.trans (by decide)

/-! ## Claim C6 -/

theorem evalCond_in_pair (r : Row) (f : String) (a b : Val) :
    evalCond r (.cin f [a, b]) =
      decide (rowGet r f = some a ∨ rowGet r f = some b) := by
  rw [evalCond]
  cases h : rowGet r f with
  | none => simp
  | some w => simp [beq_iff_eq, eq_comm]

/-- Claim C6: `status[in]=a,b` is split on `,`, each element is
deserialized with the field's (string) deserializer, and the filtered
result — and the reported total — are exactly the rows whose `status` is
`a` or `b`; an `in` filter over an empty value list matches no row at
all. -/
theorem claim6_in_filter (rows : List Row) (hlen : rows.length ≤ 50) :
    listGet statusSchema rows [("status[in]", "a,b")] =
      .ok ⟨rows.filter (fun r => decide (rowGet r "status" = some (.vStr "a") ∨
              rowGet r "status" = some (.vStr "b"))),
           (rows.filter (fun r => decide (rowGet r "status" = some (.vStr "a") ∨
              rowGet r "status" = some (.vStr "b")))).length⟩ ∧
    ∀ r : Row, evalCond r (.cin "status" []) = false := by
  constructor
  · have hcomp : compileQuery statusSchema [("status[in]", "a,b")] =
        .ok ⟨[], 50, 0, false, [],
             [("status", [.cin "status" [.vStr "a", .vStr "b"]])],
             .planB []⟩ := by decide
    unfold listGet
    rw [hcomp]
    show execQuery rows
      ⟨[], 50, 0, false, [],
       [("status", [.cin "status" [.vStr "a", .vStr "b"]])], .planB []⟩ = _
    rw [execQuery]
    simp only [List.isEmpty_cons, Bool.false_eq_true, if_false,
      List.isEmpty_nil, if_pos, List.foldl_nil, List.flatMap_cons,
      List.flatMap_nil, List.append_nil, List.all_cons, List.all_nil,
      Bool.and_true]
    have hfe : rows.filter (fun r =>
          evalCond r (.cin "status" [.vStr "a", .vStr "b"])) =
        rows.filter (fun r =>
          decide (rowGet r "status" = some (.vStr "a") ∨
            rowGet r "status" = some (.vStr "b"))) :=
      List.filter_congr (fun r _ => evalCond_in_pair r "status" _ _)
    rw [hfe]
    have h50 : ((50 : Nat) : Int) = (50 : Int) := by norm_num
    rw [← h50, applyLimitOffset_all 50 _
      (le_trans (List.length_filter_le _ _) hlen)]
    rw [finalize]
    simp
  · intro r
    rw [evalCond]
    cases rowGet r "status" <;> simp

/-- Witness for claim C6: on rows with statuses `a`, `c`, `b`, the filter
`status[in]=a,b` returns exactly the `a` and `b` rows with total 2, and
the empty `in` list matches no row. -/
theorem claim6_witness :
    listGet statusSchema
        [statusRow 1 "a", statusRow 2 "c", statusRow 3 "b"]
        [("status[in]", "a,b")] =
      .ok ⟨[statusRow 1 "a", statusRow 3 "b"], 2⟩ ∧
    evalCond (statusRow 1 "a") (.cin "status" []) = false := by
  have h := claim6_in_filter
    [statusRow 1 "a", statusRow 2 "c", statusRow 3 "b"] (by decide)
  exact ⟨h.1.trans (by decide), h.2 _⟩

/-! ## Claims C2 and C7: parameter-processing lemmas -/

theorem pushEntry_self {α : Type} (m : List (String × List α)) (k : String)
    (e : α) : ∃ l, (k, l) ∈ pushEntry m k e ∧ e ∈ l := by
  by_cases h : m.any (fun p => p.1 = k)
  · rw [pushEntry, if_pos h]
    obtain ⟨p, hp, hpk⟩ := List.any_eq_true.mp h
    rw [decide_eq_true_eq] at hpk
    refine ⟨p.2 ++ [e], ?_, List.mem_append_right _ (by simp)⟩
    refine List.mem_map.mpr ⟨p, hp, ?_⟩
    rw [if_pos hpk, hpk]
  · rw [pushEntry, if_neg h]
    exact ⟨[e], List.mem_append_right _ (by simp), by simp⟩

theorem pushEntry_mono {α : Type} {m : List (String × List α)} {b : String}
    {x : α} (hx : ∃ l, (b, l) ∈ m ∧ x ∈ l) (k : String) (e : α) :
    ∃ l, (b, l) ∈ pushEntry m k e ∧ x ∈ l := by
  obtain ⟨l, hl, hxl⟩ := hx
  by_cases h : m.any (fun p => p.1 = k)
  · rw [pushEntry, if_pos h]
    by_cases hbk : b = k
    · refine ⟨l ++ [e], ?_, List.mem_append_left _ hxl⟩
      refine List.mem_map.mpr ⟨(b, l), hl, ?_⟩
      rw [if_pos hbk]
    · refine ⟨l, ?_, hxl⟩
      refine List.mem_map.mpr ⟨(b, l), hl, ?_⟩
      rw [if_neg hbk]
  · rw [pushEntry, if_neg h]
    exact ⟨l, List.mem_append_left _ hl, hxl⟩

theorem pushEntry_ne_nil {α : Type} (m : List (String × List α)) (k : String)
    (e : α) : pushEntry m k e ≠ [] := by
  by_cases h : m.any (fun p => p.1 = k)
  · rw [pushEntry, if_pos h]
    intro hc
    rw [List.map_eq_nil_iff] at hc
    rw [hc] at h
    cases h
  · rw [pushEntry, if_neg h]
    simp

theorem collectFF_mono {schema : Schema} {args : List (String × String)}
    {acc ff : FilterFields} {b : String} {x : Option String × String}
    (hok : collectFF schema args acc = .ok ff) (hx : entryMem acc b x) :
    entryMem ff b x := by
  induction args generalizing acc with
  | nil =>
    rw [collectFF] at hok
    cases hok
    exact hx
  | cons p rest ih =>
    obtain ⟨n, v⟩ := p
    rw [collectFF] at hok
    by_cases hop : n ∈ opFields
    · rw [if_pos hop] at hok
      exact ih hok hx
    · rw [if_neg hop] at hok
      rcases hp : parseParamName n with _ | ⟨b', o'⟩ <;> rw [hp] at hok <;>
        dsimp only at hok
      · cases hok
      · by_cases hlf : (lookupField schema b').isSome
        · rw [if_pos hlf] at hok
          exact ih hok (pushEntry_mono hx b' (o', v))
        · rw [if_neg hlf] at hok
          cases hok

theorem collectFF_mem {schema : Schema} {args : List (String × String)}
    {acc ff : FilterFields} {n v : String} {b : String} {o : Option String}
    (hok : collectFF schema args acc = .ok ff) (hmem : (n, v) ∈ args)
    (hnop : n ∉ opFields) (hparse : parseParamName n = some (b, o)) :
    entryMem ff b (o, v) := by
  induction args generalizing acc with
  | nil => cases hmem
  | cons p rest ih =>
    rcases List.mem_cons.mp hmem with heq | htail
    · cases heq
      rw [collectFF, if_neg hnop, hparse] at hok
      dsimp only at hok
      by_cases hlf : (lookupField schema b).isSome
      · rw [if_pos hlf] at hok
        exact collectFF_mono hok (pushEntry_self acc b (o, v))
      · rw [if_neg hlf] at hok
        cases hok
    · obtain ⟨n', v'⟩ := p
      rw [collectFF] at hok
      by_cases hop : n' ∈ opFields
      · rw [if_pos hop] at hok
        exact ih hok htail
      · rw [if_neg hop] at hok
        rcases hp : parseParamName n' with _ | ⟨b', o'⟩ <;> rw [hp] at hok <;>
          dsimp only at hok
        · cases hok
        · by_cases hlf : (lookupField schema b').isSome
          · rw [if_pos hlf] at hok
            exact ih hok htail
          · rw [if_neg hlf] at hok
            cases hok

theorem collectFF_bad_parse (schema : Schema) {args : List (String × String)}
    {n v : String} (acc : FilterFields) (hmem : (n, v) ∈ args)
    (hnop : n ∉ opFields) (hparse : parseParamName n = none) :
    isOkE (collectFF schema args acc) = false := by
  induction args generalizing acc with
  | nil => cases hmem
  | cons p rest ih =>
    rcases List.mem_cons.mp hmem with heq | htail
    · cases heq
      rw [collectFF, if_neg hnop, hparse]
      rfl
    · obtain ⟨n', v'⟩ := p
      rw [collectFF]
      by_cases hop : n' ∈ opFields
      · rw [if_pos hop]
        exact ih _ htail
      · rw [if_neg hop]
        rcases hp : parseParamName n' with _ | ⟨b', o'⟩ <;> dsimp only
        · rfl
        · by_cases hlf : (lookupField schema b').isSome
          · rw [if_pos hlf]
            exact ih _ htail
          · rw [if_neg hlf]
            rfl

theorem collectFF_bad_field (schema : Schema) {args : List (String × String)}
    {n v : String} {b : String} {o : Option String} (acc : FilterFields)
    (hmem : (n, v) ∈ args) (hnop : n ∉ opFields)
    (hparse : parseParamName n = some (b, o))
    (hlf : lookupField schema b = none) :
    isOkE (collectFF schema args acc) = false := by
  induction args generalizing acc with
  | nil => cases hmem
  | cons p rest ih =>
    rcases List.mem_cons.mp hmem with heq | htail
    · cases heq
      rw [collectFF, if_neg hnop, hparse]
      dsimp only
      rw [if_neg (by rw [hlf]; simp)]
      rfl
    · obtain ⟨n', v'⟩ := p
      rw [collectFF]
      by_cases hop : n' ∈ opFields
      · rw [if_pos hop]
        exact ih _ htail
      · rw [if_neg hop]
        rcases hp : parseParamName n' with _ | ⟨b', o'⟩ <;> dsimp only
        · rfl
        · by_cases hlf' : (lookupField schema b').isSome
          · rw [if_pos hlf']
            exact ih _ htail
          · rw [if_neg hlf']
            rfl

theorem procOne_unknown_op (schema : Schema) (name o v : String)
    (st : PendingOps × CondMap)
    (h : o ∉ (["max", "in", "gt", "gte", "lt", "lte"] : List String)) :
    isOkE (procOneFilter schema name (some o, v) st) = false := by
  simp only [List.mem_cons, List.not_mem_nil, or_false, not_or] at h
  obtain ⟨h1, h2, h3, h4, h5, h6⟩ := h
  rw [procOneFilter]
  dsimp only
  rw [if_neg (by simp [h1]), if_neg (by simp [h2])]
  rcases hty : fieldTyOf schema name with er | ty <;> dsimp only
  · rfl
  · rcases hd : deserQueryValue ty v with er | tv <;> dsimp only
    · rfl
    · rw [if_neg h3, if_neg h4, if_neg h5, if_neg h6]
      rfl

theorem procFilterList_bad_op (schema : Schema) (name : String)
    {o v : String} {es : List (Option String × String)}
    (st : PendingOps × CondMap) (hmem : (some o, v) ∈ es)
    (ho : o ∉ (["max", "in", "gt", "gte", "lt", "lte"] : List String)) :
    isOkE (procFilterList schema name es st) = false := by
  induction es generalizing st with
  | nil => cases hmem
  | cons e rest ih =>
    rw [procFilterList]
    rcases hk : procOneFilter schema name e st with er | st' <;> dsimp only
    · rfl
    · rcases List.mem_cons.mp hmem with heq | htail
      · exfalso
        cases heq
        have hbad := procOne_unknown_op schema name o v st ho
        rw [hk] at hbad
        cases hbad
      · exact ih st' htail

theorem procOne_pending_cases {schema : Schema} {name : String}
    {e : Option String × String} {st st' : PendingOps × CondMap}
    (h : procOneFilter schema name e st = .ok st') :
    st'.1 = st.1 ∨ st'.1 = pushEntry st.1 name ("max", e.2) := by
  rw [procOneFilter] at h
  by_cases h1 : e.1 = some "max"
  · rw [if_pos h1] at h
    by_cases h2 : (getEntries st.1 name).any (fun p => p.1 = "max")
    · rw [if_pos h2] at h; cases h
    · rw [if_neg h2] at h; cases h; right; rfl
  · rw [if_neg h1] at h
    by_cases h2 : e.1 = some "in"
    · rw [if_pos h2] at h
      rcases hty : fieldTyOf schema name with er | ty <;> rw [hty] at h <;>
        dsimp only at h
      · cases h
      · rcases hm : mapE (deserQueryValue ty) (splitCSV e.2) with er | vs <;>
          rw [hm] at h <;> dsimp only at h
        · cases h
        · cases h; left; rfl
    · rw [if_neg h2] at h
      rcases hty : fieldTyOf schema name with er | ty <;> rw [hty] at h <;>
        dsimp only at h
      · cases h
      · rcases hd : deserQueryValue ty e.2 with er | tv <;> rw [hd] at h <;>
          dsimp only at h
        · cases h
        · rcases he1 : e.1 with _ | o <;> rw [he1] at h <;> dsimp only at h
          · cases h; left; rfl
          · by_cases hgt : o = "gt"
            · rw [if_pos hgt] at h; cases h; left; rfl
            · rw [if_neg hgt] at h
              by_cases hgte : o = "gte"
              · rw [if_pos hgte] at h; cases h; left; rfl
              · rw [if_neg hgte] at h
                by_cases hlt : o = "lt"
                · rw [if_pos hlt] at h; cases h; left; rfl
                · rw [if_neg hlt] at h
                  by_cases hlte : o = "lte"
                  · rw [if_pos hlte] at h; cases h; left; rfl
                  · rw [if_neg hlte] at h; cases h

theorem procOne_max_pending {schema : Schema} {name : String}
    {e : Option String × String} {st st' : PendingOps × CondMap}
    (hmax : e.1 = some "max")
    (h : procOneFilter schema name e st = .ok st') :
    st'.1 = pushEntry st.1 name ("max", e.2) := by
  rw [procOneFilter, if_pos hmax] at h
  by_cases h2 : (getEntries st.1 name).any (fun p => p.1 = "max")
  · rw [if_pos h2] at h; cases h
  · rw [if_neg h2] at h; cases h; rfl

theorem procFilterList_pending_mono {schema : Schema} {name : String}
    {es : List (Option String × String)} {st st' : PendingOps × CondMap}
    (h : procFilterList schema name es st = .ok st') (hne : st.1 ≠ []) :
    st'.1 ≠ [] := by
  induction es generalizing st with
  | nil => rw [procFilterList] at h; cases h; exact hne
  | cons e rest ih =>
    rw [procFilterList] at h
    rcases hk : procOneFilter schema name e st with er | st1 <;>
      rw [hk] at h <;> dsimp only at h
    · cases h
    · refine ih h ?_
      rcases procOne_pending_cases hk with hc | hc
      · rw [hc]; exact hne
      · rw [hc]; exact pushEntry_ne_nil _ _ _

theorem procFilterList_pending_max {schema : Schema} {name v : String}
    {es : List (Option String × String)} {st st' : PendingOps × CondMap}
    (hmem : (some "max", v) ∈ es)
    (h : procFilterList schema name es st = .ok st') : st'.1 ≠ [] := by
  induction es generalizing st with
  | nil => cases hmem
  | cons e rest ih =>
    rw [procFilterList] at h
    rcases hk : procOneFilter schema name e st with er | st1 <;>
      rw [hk] at h <;> dsimp only at h
    · cases h
    · rcases List.mem_cons.mp hmem with heq | htail
      · cases heq
        have h1 := procOne_max_pending rfl hk
        exact procFilterList_pending_mono h (h1 ▸ pushEntry_ne_nil _ _ _)
      · exact ih htail h

theorem buildConditions_pending_mono {schema : Schema} {ff : FilterFields}
    {st st' : PendingOps × CondMap}
    (h : buildConditions schema ff st = .ok st') (hne : st.1 ≠ []) :
    st'.1 ≠ [] := by
  induction ff generalizing st with
  | nil => rw [buildConditions] at h; cases h; exact hne
  | cons p rest ih =>
    obtain ⟨n', es'⟩ := p
    rw [buildConditions] at h
    rcases hk : procFilterList schema n' es' st with er | st1 <;>
      rw [hk] at h <;> dsimp only at h
    · cases h
    · exact ih h (procFilterList_pending_mono hk hne)

theorem buildConditions_pending_max {schema : Schema} {ff : FilterFields}
    {name v : String} {st st' : PendingOps × CondMap}
    (hentry : entryMem ff name (some "max", v))
    (h : buildConditions schema ff st = .ok st') : st'.1 ≠ [] := by
  induction ff generalizing st with
  | nil =>
    obtain ⟨l, hl, _⟩ := hentry
    cases hl
  | cons p rest ih =>
    obtain ⟨n', es'⟩ := p
    rw [buildConditions] at h
    rcases hk : procFilterList schema n' es' st with er | st1 <;>
      rw [hk] at h <;> dsimp only at h
    · cases h
    · obtain ⟨l, hl, hmem⟩ := hentry
      rcases List.mem_cons.mp hl with heq | htail
      · cases heq
        exact buildConditions_pending_mono h
          (procFilterList_pending_max hmem hk)
      · exact ih ⟨l, htail, hmem⟩ h

theorem buildConditions_bad_op (schema : Schema) {ff : FilterFields}
    {name o v : String} (st : PendingOps × CondMap)
    (hentry : entryMem ff name (some o, v))
    (ho : o ∉ (["max", "in", "gt", "gte", "lt", "lte"] : List String)) :
    isOkE (buildConditions schema ff st) = false := by
  induction ff generalizing st with
  | nil =>
    obtain ⟨l, hl, _⟩ := hentry
    cases hl
  | cons p rest ih =>
    obtain ⟨n', es'⟩ := p
    rw [buildConditions]
    rcases hk : procFilterList schema n' es' st with er | st1 <;> dsimp only
    · rfl
    · obtain ⟨l, hl, hmem⟩ := hentry
      rcases List.mem_cons.mp hl with heq | htail
      · exfalso
        cases heq
        have hbad := procFilterList_bad_op schema name st hmem ho
        rw [hk] at hbad
        cases hbad
      · exact ih st1 ⟨l, htail, hmem⟩

theorem mapE_ne_nil {α β : Type} {f : α → Except ApiError β} {x : α}
    {xs : List α} {ys : List β} (h : mapE f (x :: xs) = .ok ys) :
    ys ≠ [] := by
  rw [mapE] at h
  rcases hf : f x with er | y <;> rw [hf] at h <;> dsimp only at h
  · cases h
  · rcases hm : mapE f xs with er | ys' <;> rw [hm] at h <;> dsimp only at h
    · cases h
    · cases h; simp

theorem stageGroupBy_ne_nil {schema : Schema} {args : List (String × String)}
    {gb : String} {gfs : List String}
    (hg : getArg args "group_by" = some gb)
    (h : stageGroupBy schema args = .ok gfs) : gfs ≠ [] := by
  rw [stageGroupBy, hg] at h
  dsimp only at h
  rcases hsp : splitCSV gb with _ | ⟨x, xs⟩
  · exact absurd hsp (splitCSV_ne_nil gb)
  · rw [hsp] at h
    exact mapE_ne_nil h

theorem compile_ok_parts {schema : Schema} {args : List (String × String)}
    {q : CompiledQuery} (h : compileQuery schema args = .ok q) :
    ∃ gfs ff st, stageGroupBy schema args = .ok gfs ∧
      collectFF schema args [] = .ok ff ∧
      buildConditions schema ff ([], []) = .ok st ∧
      (gfs = [] ∨ st.1 = []) := by
  rw [compileQuery] at h
  rcases h1 : stageFields schema args with e | fns <;> rw [h1] at h <;>
    dsimp only at h
  · cases h
  rcases h2 : stageInt args "limit" "50" with e | lim <;> rw [h2] at h <;>
    dsimp only at h
  · cases h
  rcases h3 : stageInt args "offset" "0" with e | off <;> rw [h3] at h <;>
    dsimp only at h
  · cases h
  rcases h4 : stageSortedBy schema args with e | ob <;> rw [h4] at h <;>
    dsimp only at h
  · cases h
  rcases h5 : stageGroupBy schema args with e | gfs <;> rw [h5] at h <;>
    dsimp only at h
  · cases h
  rcases h6 : collectFF schema args [] with e | ff <;> rw [h6] at h <;>
    dsimp only at h
  · cases h
  rcases h7 : buildConditions schema ff ([], []) with e | st <;> rw [h7] at h <;>
    dsimp only at h
  · cases h
  refine ⟨gfs, ff, st, rfl, rfl, h7, ?_⟩
  by_cases hge : gfs.isEmpty = true
  · left
    exact List.isEmpty_iff.mp hge
  · rw [if_neg hge] at h
    by_cases hpe : st.1.isEmpty = true
    · right
      exact List.isEmpty_iff.mp hpe
    · rw [if_neg hpe] at h
      cases h

/-! ## Claim C2 -/

/-- Claim C2 (amended): a request carrying both a `group_by` parameter and
at least one `[max]`/`[min]` operator never succeeds — no aggregation is
ever silently picked. With `[max]` the rejection is the
multiple-aggregations bad request; with `[min]` the request also always
fails, but the failure is the unsupported-operator bad request only when
the raw value passes the target field's deserializer, and an uncaught
deserialization `ValueError` otherwise (see the counterexample). -/
theorem claim2_aggregation_amended (schema : Schema) (rows : List Row)
    (args : List (String × String))
    (hg : (getArg args "group_by").isSome = true)
    (he : extremumParam args) :
    isOkE (listGet schema rows args) = false := by
  rcases hc : compileQuery schema args with e | q
  · unfold listGet
    rw [hc]
    rfl
  · exfalso
    obtain ⟨gfs, ff, st, hgb, hcf, hbc, hdisj⟩ := compile_ok_parts hc
    obtain ⟨gb, hgb'⟩ := Option.isSome_iff_exists.mp hg
    have hgfs : gfs ≠ [] := stageGroupBy_ne_nil hgb' hgb
    obtain ⟨p, hp, hpop, b, o, hparse, hmaxmin⟩ := he
    have hp' : (p.1, p.2) ∈ args := by rwa [Prod.mk.eta]
    rcases hmaxmin with rfl | rfl
    · have hentry := collectFF_mem hcf hp' hpop hparse
      have hpend := buildConditions_pending_max hentry hbc
      rcases hdisj with h | h
      · exact hgfs h
      · exact hpend h
    · have hentry := collectFF_mem hcf hp' hpop hparse
      have hbad := buildConditions_bad_op schema ([], []) hentry (by decide)
      rw [hbc] at hbad
      cases hbad

/-- Witness for claim C2: the request `group_by=g&value[max]=g` on the
example model is rejected. -/
theorem claim2_witness :
    isOkE (listGet exSchema []
      [("group_by", "g"), ("value[max]", "g")]) = false :=
  claim2_aggregation_amended exSchema []
    [("group_by", "g"), ("value[max]", "g")] (by decide)
    ⟨("value[max]", "g"), by decide, by decide,
     "value", "max", by decide, Or.inl rfl⟩

/-! ## Claim C7 -/

/-- Claim C7 (amended): for a non-reserved request parameter, (a) a name
with no leading word-character run (the regex fails) makes the request
fail, (b) a parsed base name that is not a known field makes the request
fail, and (c) a parsed complete `[op]` bracket whose operator is outside
the implemented set makes the request fail — but the name grammar is only
prefix-matched, so a name with trailing garbage that does not form a
complete bracketed operator (e.g. `value[gt`) is silently misparsed as a
bare equality filter rather than rejected (see the counterexample). -/
theorem claim7_param_validation_amended (schema : Schema) (rows : List Row)
    (args : List (String × String)) (n v : String)
    (hmem : (n, v) ∈ args) (hnop : n ∉ opFields) :
    (parseParamName n = none → isOkE (listGet schema rows args) = false) ∧
    (∀ b o, parseParamName n = some (b, o) → lookupField schema b = none →
      isOkE (listGet schema rows args) = false) ∧
    (∀ b o, parseParamName n = some (b, some o) →
      o ∉ (["gt", "gte", "lt", "lte", "in", "max"] : List String) →
      isOkE (listGet schema rows args) = false) := by
  refine ⟨?_, ?_, ?_⟩
  · intro hparse
    rcases hc : compileQuery schema args with e | q
    · unfold listGet; rw [hc]; rfl
    · exfalso
      obtain ⟨gfs, ff, st, _, hcf, _, _⟩ := compile_ok_parts hc
      have hbad := collectFF_bad_parse schema [] hmem hnop hparse
      rw [hcf] at hbad
      cases hbad
  · intro b o hparse hlf
    rcases hc : compileQuery schema args with e | q
    · unfold listGet; rw [hc]; rfl
    · exfalso
      obtain ⟨gfs, ff, st, _, hcf, _, _⟩ := compile_ok_parts hc
      have hbad := collectFF_bad_field schema [] hmem hnop
        hparse hlf
      rw [hcf] at hbad
      cases hbad
  · intro b o hparse ho
    rcases hc : compileQuery schema args with e | q
    · unfold listGet; rw [hc]; rfl
    · exfalso
      obtain ⟨gfs, ff, st, _, hcf, hbc, _⟩ := compile_ok_parts hc
      have hentry := collectFF_mem hcf hmem hnop hparse
      have hbad := buildConditions_bad_op schema ([], []) hentry (by
          simp only [List.mem_cons, List.not_mem_nil, or_false, not_or] at ho ⊢
          obtain ⟨hgt, hgte, hlt, hlte, hin, hmax⟩ := ho
          exact ⟨hmax, hin, hgt, hgte, hlt, hlte⟩)
      rw [hbc] at hbad
      cases hbad

/-- Witness for claim C7: the unknown base name `bogus` is rejected. -/
theorem claim7_witness :
    isOkE (listGet exSchema [] [("bogus", "3")]) = false :=
  (claim7_param_validation_amended exSchema [] [("bogus", "3")] "bogus" "3"
    (by decide) (by decide)).2.1 "bogus" none (by decide) (by decide)

/-! ## Claim C5 -/

theorem rheDiv_times_bound (n : Int) :
    (rheDiv n 1000 * 1000 - n).natAbs ≤ 500 := by
  have h1 : 1000 * (n.ediv 1000) + n.emod 1000 = n :=
    Int.ediv_add_emod n 1000
  have h2 : 0 ≤ n.emod 1000 := Int.emod_nonneg n (by norm_num)
  have h3 : n.emod 1000 < 1000 := Int.emod_lt_of_pos n (by norm_num)
  simp only [rheDiv]
  split_ifs <;> omega

theorem serializerFor_dtFree_none (tz : Int) :
    ∀ t : TypeDesc, dtFree t = true → serializerFor tz t = none := by
  intro t
  induction t with
  | tdInt => intro _; rfl
  | tdBool => intro _; rfl
  | tdStr => intro _; rfl
  | tdFloat => intro _; rfl
  | tdNone => intro _; rfl
  | tdDateTime => intro h; cases h
  | tdOption t ih =>
    intro h
    rw [dtFree] at h
    rw [serializerFor, ih h]
  | tdList t ih =>
    intro h
    rw [dtFree] at h
    rw [serializerFor, ih h]

theorem mapE_ok_of_all {ε α : Type} {g : α → Except ε α} :
    ∀ l : List α, (∀ x ∈ l, g x = .ok x) → mapE g l = .ok l := by
  intro l
  induction l with
  | nil => intro _; rfl
  | cons x xs ih =>
    intro h
    rw [mapE, h x (List.mem_cons_self _ _),
      ih (fun y hy => h y (List.mem_cons_of_mem _ hy))]

theorem deser_wellTyped_id (iso : String → Option Int)
    (fp : String → Option Rat) :
    ∀ (t : TypeDesc) (v : PyVal), wellTypedB t v = true → dtFree t = true →
      deserializeFor iso fp t v = .ok v := by
  intro t
  induction t with
  | tdInt => intro v hwt _; cases v <;> simp [wellTypedB] at hwt <;> rfl
  | tdBool => intro v hwt _; cases v <;> simp [wellTypedB] at hwt <;> rfl
  | tdStr => intro v hwt _; cases v <;> simp [wellTypedB] at hwt <;> rfl
  | tdFloat => intro v hwt _; cases v <;> simp [wellTypedB] at hwt <;> rfl
  | tdNone => intro v hwt _; cases v <;> simp [wellTypedB] at hwt <;> rfl
  | tdDateTime => intro v _ hdf; cases hdf
  | tdOption t ih =>
    intro v hwt hdf
    rw [dtFree] at hdf
    rw [deserializeFor]
    by_cases hn : pyIsNone v = true
    · rw [if_pos hn]
    · rw [if_neg hn]
      refine ih v ?_ hdf
      cases v <;> simp [pyIsNone] at hn <;> simpa [wellTypedB] using hwt
  | tdList t ih =>
    intro v hwt hdf
    rw [dtFree] at hdf
    cases v <;> simp [wellTypedB] at hwt
    rename_i l
    rw [deserializeFor]
    rw [mapE_ok_of_all l (fun x hx => ih x (hwt x hx) hdf)]
    rfl

/-- Claim C5 (amended): for every derivable DateTime-free type the
round-trip `deserialize(serialize(v))` is the identity on well-typed
values; for DateTime the serializer applies Python `timestamp()`, which
reads the naive value in the process's *local* timezone, while the
deserializer applies `utcfromtimestamp`, so the round-trip lands on the
millisecond rounding of the value *shifted by the local-UTC offset* —
equal to the original up to half a millisecond only when the process
timezone is UTC (offset 0); for a nonzero offset the round-trip is off by
the full offset (see the counterexample). -/
theorem claim5_datetime_roundtrip_amended (iso : String → Option Int)
    (fp : String → Option Rat) (tz : Int) (t : TypeDesc) (v : PyVal)
    (hwt : wellTypedB t v = true) :
    (dtFree t = true →
      deserializeFor iso fp t (applySer (serializerFor tz t) v) = .ok v) ∧
    (∀ us, t = .tdDateTime → v = .vDateTime us →
      deserializeFor iso fp t (applySer (serializerFor tz t) v) =
        .ok (.vDateTime (rheDiv (us - tz * 1000000) 1000 * 1000)) ∧
      (tz = 0 →
        (rheDiv (us - tz * 1000000) 1000 * 1000 - us).natAbs ≤ 500)) := by
  constructor
  · intro hdf
    rw [serializerFor_dtFree_none tz t hdf]
    exact deser_wellTyped_id iso fp t v hwt hdf
  · intro us ht hv
    subst ht
    subst hv
    refine ⟨rfl, ?_⟩
    intro htz
    subst htz
    have hn : us - 0 * 1000000 = us := by ring
    rw [hn]
    exact rheDiv_times_bound us

/-- Counterexample to claim C5 as stated: in a process whose local
timezone is UTC+1 (offset 3600 s), serializing the epoch datetime and
deserializing the result yields the value shifted by a full hour
(-3600000000 µs), vastly beyond millisecond precision — `timestamp()`
interprets the naive datetime as local time while `utcfromtimestamp`
interprets the integer as UTC. -/
theorem claim5_counterexample :
    deserializeFor iso0 fp0 .tdDateTime
        (applySer (serializerFor 3600 .tdDateTime) (.vDateTime 0)) =
      .ok (.vDateTime (-3600000000)) ∧
    1000 < ((-3600000000 : Int) - 0).natAbs := by
  constructor
  · rfl
  · decide

/-- Witness for claim C5: at offset 0 the datetime `123456 µs` round-trips
to `123000 µs` (within half a millisecond), and the DateTime-free type
`int` round-trips exactly. -/
theorem claim5_witness :
    deserializeFor iso0 fp0 .tdDateTime
        (applySer (serializerFor 0 .tdDateTime) (.vDateTime 123456)) =
      .ok (.vDateTime 123000) ∧
    ((123000 : Int) - 123456).natAbs ≤ 500 ∧
    deserializeFor iso0 fp0 (.tdList .tdInt)
        (applySer (serializerFor 0 (.tdList .tdInt))
          (.vList [.vInt 7, .vInt 8])) =
      .ok (.vList [.vInt 7, .vInt 8]) := by
  have h1 := claim5_datetime_roundtrip_amended iso0 fp0 0 .tdDateTime
    (.vDateTime 123456) rfl
  have h2 := claim5_datetime_roundtrip_amended iso0 fp0 0 (.tdList .tdInt)
    (.vList [.vInt 7, .vInt 8]) rfl
  refine ⟨(h1.2 123456 rfl rfl).1.trans (by rfl), by decide, h2.1 rfl⟩

/-! ## Claim C9 -/

theorem removeKey_lookup (m : List (String × PyVal)) (k : String) :
    lookupPy (removeKey m k) k = none := by
  have hnone : (removeKey m k).find? (fun p => decide (p.1 = k)) = none := by
    rw [List.find?_eq_none]
    intro p hp
    rw [removeKey, List.mem_filter] at hp
    have h2 := hp.2
    rw [decide_eq_true_eq] at h2
    simp [h2]
  rw [lookupPy, hnone]
  rfl

theorem removeKey_eq_self {m : List (String × PyVal)} {k : String}
    (h : lookupPy m k = none) : removeKey m k = m := by
  rw [removeKey, List.filter_eq_self]
  intro p hp
  rw [decide_eq_true_eq]
  intro hpk
  rw [lookupPy] at h
  have hf : m.find? (fun q => decide (q.1 = k)) = none := by
    cases hfind : m.find? (fun q => decide (q.1 = k)) with
    | none => rfl
    | some q => rw [hfind] at h; cases h
  have hnp := List.find?_eq_none.mp hf p hp
  simp [hpk] at hnp

/-- Claim C9 (amended): the create endpoint does not reject a
client-supplied `id` — it deserializes the posted fields, silently
removes the `id` key from the insert payload ("remove id as this API
always creates a new record"), and creates a record whose stored
identifier is assigned by the store: the response record's `id` is the
store-assigned one and the inserted payload never carries an `id`. -/
theorem claim9_create_amended (iso : String → Option Int)
    (fp : String → Option Rat) (schema : List (String × TypeDesc))
    (posted : List (String × PyVal)) (freshId : Int)
    (raw : List (String × PyVal))
    (h : buildRaw iso fp schema posted = .ok raw) :
    createEndpoint iso fp schema posted freshId =
      .ok (("id", .vInt freshId) :: removeKey raw "id") ∧
    lookupPy (("id", .vInt freshId) :: removeKey raw "id") "id" =
      some (.vInt freshId) ∧
    lookupPy (removeKey raw "id") "id" = none := by
  refine ⟨?_, by rfl, removeKey_lookup raw "id"⟩
  rw [createEndpoint, h]
  dsimp only
  by_cases hid : (lookupPy raw "id").isSome = true
  · rw [if_pos hid]
  · rw [if_neg hid]
    rw [removeKey_eq_self (Option.not_isSome_iff_eq_none.mp hid)]

/-- Counterexample to claim C9 as stated: a POST body carrying
`id = 5` is not rejected — the endpoint succeeds and returns a record
whose stored identifier is the store-assigned `7`, different from the
supplied `5`, with no error signalled. -/
theorem claim9_counterexample :
    createEndpoint iso0 fp0 [("id", .tdInt), ("name", .tdStr)]
        [("id", .vInt 5), ("name", .vStr "x")] 7 =
      .ok [("id", .vInt 7), ("name", .vStr "x")] ∧
    isOkE (createEndpoint iso0 fp0 [("id", .tdInt), ("name", .tdStr)]
        [("id", .vInt 5), ("name", .vStr "x")] 7) = true ∧
    ¬ (7 : Int) = 5 :=
  ⟨rfl, rfl, by decide⟩

/-- Witness for claim C9: on the concrete body `{id: 5, name: "x"}` the
amended behavior is exhibited with store-assigned id 7. -/
theorem claim9_witness :
    createEndpoint iso0 fp0 [("id", .tdInt), ("name", .tdStr)]
        [("id", .vInt 5), ("name", .vStr "x")] 7 =
      .ok [("id", .vInt 7), ("name", .vStr "x")] ∧
    lookupPy [("name", .vStr "x")] "id" = none := by
  have h := claim9_create_amended iso0 fp0 [("id", .tdInt), ("name", .tdStr)]
    [("id", .vInt 5), ("name", .vStr "x")] 7
    [("id", .vInt 5), ("name", .vStr "x")] rfl
  exact ⟨h.1.trans (by rfl), h.2.2.symm ▸ rfl⟩

/-! ## Claim C10 -/

/-- Claim C10: the integer deserializer accepts Python booleans — the
leading `isinstance(value, int)` check is true for `bool` (a subclass of
`int`), so for every boolean `b`, `deserialize_int(b)` returns `b`
unchanged without error: a JSON `true`/`false` supplied for an
integer-typed field passes the shape check and is stored as a boolean
rather than rejected. -/
theorem claim10_int_deserializer_accepts_bool :
    ∀ b : Bool, pyDeserializeInt (.vBool b) = .ok (.vBool b) :=
  fun _ => rfl

/-! ## Claim C8 -/

theorem regLookup_insert_self (reg : Registry) (c : Nat) (d : DeserRepr) :
    regLookup (regInsert reg c d) c = some d := by
  induction reg with
  | nil => simp [regInsert, regLookup]
  | cons p rest ih =>
    rw [regInsert]
    by_cases hp : p.1 = c
    · rw [if_pos hp]
      simp [regLookup]
    · rw [if_neg hp]
      rw [regLookup, List.find?_cons_of_neg _ (by simpa using hp)]
      exact ih

theorem regLookup_insert_other {c c' : Nat} (reg : Registry) (d : DeserRepr)
    (h : c' ≠ c) : regLookup (regInsert reg c d) c' = regLookup reg c' := by
  have hcc : ¬ ((c, d).1 = c') := fun hh => h (hh.symm)
  induction reg with
  | nil =>
    rw [regInsert, regLookup, List.find?_cons_of_neg _ (by simpa using hcc)]
    rfl
  | cons p rest ih =>
    rw [regInsert]
    by_cases hp : p.1 = c
    · rw [if_pos hp, regLookup, List.find?_cons_of_neg _ (by simpa using hcc),
        regLookup, List.find?_cons_of_neg _ (by simp [hp]; exact fun hh => h hh.symm)]
    · rw [if_neg hp]
      by_cases hpc : p.1 = c'
      · rw [regLookup, List.find?_cons_of_pos _ (by simpa using hpc),
          regLookup, List.find?_cons_of_pos _ (by simpa using hpc)]
      · rw [regLookup, List.find?_cons_of_neg _ (by simpa using hpc),
          regLookup, List.find?_cons_of_neg _ (by simpa using hpc)]
        exact ih

theorem filterLen_mono {α : Type} {p q : α → Bool} (l : List α)
    (h : ∀ a ∈ l, q a = true → p a = true) :
    (l.filter q).length ≤ (l.filter p).length := by
  induction l with
  | nil => simp
  | cons x xs ih =>
    have hx := h x (List.mem_cons_self _ _)
    have ih' := ih (fun a ha => h a (List.mem_cons_of_mem _ ha))
    rcases hq : q x with _ | _
    · rcases hp : p x with _ | _ <;>
        simp only [List.filter_cons, hq, hp, List.length_cons, if_true,
          Bool.false_eq_true, if_false] <;> omega
    · have hpx := hx hq
      simp only [List.filter_cons, hq, hpx, List.length_cons, if_true]
      omega

theorem filterLen_strict {α : Type} {p q : α → Bool} {l : List α} {a : α}
    (ha : a ∈ l) (hp : p a = true) (hq : q a = false)
    (h : ∀ x ∈ l, q x = true → p x = true) :
    (l.filter q).length < (l.filter p).length := by
  induction l with
  | nil => cases ha
  | cons x xs ih =>
    have h' := fun b hb => h b (List.mem_cons_of_mem _ hb)
    rcases List.mem_cons.mp ha with rfl | hmem
    · have hmono := filterLen_mono xs h'
      simp only [List.filter_cons, hq, hp, List.length_cons, if_true,
        Bool.false_eq_true, if_false]
      omega
    · have hlt := ih hmem h'
      rcases hqx : q x with _ | _
      · rcases hpx : p x with _ | _ <;>
          simp only [List.filter_cons, hqx, hpx, List.length_cons, if_true,
            Bool.false_eq_true, if_false] <;> omega
      · have hpx := h x (List.mem_cons_self _ _) hqx
        simp only [List.filter_cons, hqx, hpx, List.length_cons, if_true]
        omega

theorem unregCount_le_len (env : DcEnv) (reg : Registry) :
    unregCount env reg ≤ env.length := by
  calc ((List.range env.length).filter _).length
      ≤ (List.range env.length).length := List.length_filter_le _ _
    _ = env.length := List.length_range _

theorem unregCount_insert_le (env : DcEnv) (reg : Registry) (c : Nat)
    (d : DeserRepr) :
    unregCount env (regInsert reg c d) ≤ unregCount env reg := by
  refine filterLen_mono _ ?_
  intro i _ hq
  by_cases hic : i = c
  · rw [hic, regLookup_insert_self] at hq
    cases hq
  · rwa [regLookup_insert_other reg d hic] at hq

theorem unregCount_insert_lt {env : DcEnv} {reg : Registry} {c : Nat}
    (d : DeserRepr) (hc : c < env.length) (hn : regLookup reg c = none) :
    unregCount env (regInsert reg c d) < unregCount env reg := by
  refine filterLen_strict (List.mem_range.mpr hc) ?_ ?_ ?_
  · rw [hn]; rfl
  · rw [regLookup_insert_self]; rfl
  · intro i _ hq
    by_cases hic : i = c
    · rw [hic, regLookup_insert_self] at hq
      cases hq
    · rwa [regLookup_insert_other reg d hic] at hq

theorem derivation_props (env : DcEnv) : ∀ fuel : Nat,
    (∀ t reg, unregCount env reg ≤ fuel →
      getFromType env fuel t reg ≠ .error .fuelExhausted ∧
      ∀ dr, getFromType env fuel t reg = .ok dr →
        unregCount env dr.2 ≤ unregCount env reg ∧
        ∀ i d0, regLookup reg i = some d0 → regLookup dr.2 i = some d0) ∧
    (∀ flds reg, unregCount env reg ≤ fuel →
      goFields env fuel reg flds ≠ .error .fuelExhausted ∧
      ∀ reg', goFields env fuel reg flds = .ok reg' →
        unregCount env reg' ≤ unregCount env reg ∧
        ∀ i d0, regLookup reg i = some d0 → regLookup reg' i = some d0) ∧
    (∀ c reg, unregCount env (regInsert reg c (.dDataclass c)) < fuel →
      deriveDataclass env fuel c reg ≠ .error .fuelExhausted ∧
      ∀ dr, deriveDataclass env fuel c reg = .ok dr →
        dr.1 = .dDataclass c ∧
        regLookup dr.2 c = some (.dDataclass c) ∧
        unregCount env dr.2 ≤
          unregCount env (regInsert reg c (.dDataclass c)) ∧
        ∀ i d0, i ≠ c → regLookup reg i = some d0 →
          regLookup dr.2 i = some d0) := by
  intro fuel
  induction fuel using Nat.strong_induction_on with
  | _ fuel ih =>
    have hC : ∀ c reg,
        unregCount env (regInsert reg c (.dDataclass c)) < fuel →
        deriveDataclass env fuel c reg ≠ .error .fuelExhausted ∧
        ∀ dr, deriveDataclass env fuel c reg = .ok dr →
          dr.1 = .dDataclass c ∧
          regLookup dr.2 c = some (.dDataclass c) ∧
          unregCount env dr.2 ≤
            unregCount env (regInsert reg c (.dDataclass c)) ∧
          ∀ i d0, i ≠ c → regLookup reg i = some d0 →
            regLookup dr.2 i = some d0 := by
      intro c reg hcnt
      rcases henv : env.get? c with _ | flds
      · constructor
        · rw [deriveDataclass, henv]
          simp
        · intro dr hdr
          rw [deriveDataclass, henv] at hdr
          cases hdr
      · have hfz : fuel ≠ 0 := by omega
        obtain ⟨k, rfl⟩ := Nat.exists_eq_succ_of_ne_zero hfz
        obtain ⟨ihA, ihB, _⟩ := ih k (by omega)
        have hreg1 : unregCount env (regInsert reg c (.dDataclass c)) ≤ k := by
          omega
        have hBf := ihB flds (regInsert reg c (.dDataclass c)) hreg1
        constructor
        · rw [deriveDataclass, henv]
          dsimp only
          rcases hgf : goFields env k (regInsert reg c (.dDataclass c)) flds
            with e | reg' <;> (try rw [hgf]) <;> (try dsimp only)
          · intro hcon
            injection hcon with he
            exact hBf.1 (by rw [hgf, he])
          · simp
        · intro dr hdr
          rw [deriveDataclass, henv] at hdr
          dsimp only at hdr
          rcases hgf : goFields env k (regInsert reg c (.dDataclass c)) flds
            with e | reg' <;> (try rw [hgf] at hdr) <;> (try dsimp only at hdr)
          · cases hdr
          · cases hdr
            obtain ⟨hle, hpres⟩ := hBf.2 reg' hgf
            refine ⟨rfl, ?_, hle, ?_⟩
            · exact hpres c _ (regLookup_insert_self reg c (.dDataclass c))
            · intro i d0 hic hi
              refine hpres i d0 ?_
              rw [regLookup_insert_other reg _ hic]
              exact hi
    have hA : ∀ t reg, unregCount env reg ≤ fuel →
        getFromType env fuel t reg ≠ .error .fuelExhausted ∧
        ∀ dr, getFromType env fuel t reg = .ok dr →
          unregCount env dr.2 ≤ unregCount env reg ∧
          ∀ i d0, regLookup reg i = some d0 → regLookup dr.2 i = some d0 := by
      intro t
      induction t with
      | fsInt =>
        intro reg h
        refine ⟨by rw [getFromType]; simp, ?_⟩
        intro dr hdr
        rw [getFromType] at hdr
        cases hdr
        exact ⟨le_refl _, fun i d0 hi => hi⟩
      | fsStr =>
        intro reg h
        refine ⟨by rw [getFromType]; simp, ?_⟩
        intro dr hdr
        rw [getFromType] at hdr
        cases hdr
        exact ⟨le_refl _, fun i d0 hi => hi⟩
      | fsBool =>
        intro reg h
        refine ⟨by rw [getFromType]; simp, ?_⟩
        intro dr hdr
        rw [getFromType] at hdr
        cases hdr
        exact ⟨le_refl _, fun i d0 hi => hi⟩
      | fsFloat =>
        intro reg h
        refine ⟨by rw [getFromType]; simp, ?_⟩
        intro dr hdr
        rw [getFromType] at hdr
        cases hdr
        exact ⟨le_refl _, fun i d0 hi => hi⟩
      | fsOptional t iht =>
        intro reg h
        constructor
        · rw [getFromType]
          rcases hg : getFromType env fuel t reg with e | dr <;>
            (try rw [hg]) <;> (try dsimp only)
          · intro hcon
            injection hcon with he
            exact (iht reg h).1 (by rw [hg, he])
          · simp
        · intro dr hdr
          rw [getFromType] at hdr
          rcases hg : getFromType env fuel t reg with e | dr' <;>
            (try rw [hg] at hdr) <;> (try dsimp only at hdr)
          · cases hdr
          · cases hdr
            exact (iht reg h).2 dr' hg
      | fsList t iht =>
        intro reg h
        constructor
        · rw [getFromType]
          rcases hg : getFromType env fuel t reg with e | dr <;>
            (try rw [hg]) <;> (try dsimp only)
          · intro hcon
            injection hcon with he
            exact (iht reg h).1 (by rw [hg, he])
          · simp
        · intro dr hdr
          rw [getFromType] at hdr
          rcases hg : getFromType env fuel t reg with e | dr' <;>
            (try rw [hg] at hdr) <;> (try dsimp only at hdr)
          · cases hdr
          · cases hdr
            exact (iht reg h).2 dr' hg
      | fsDataclass c =>
        intro reg h
        rcases hrl : regLookup reg c with _ | d
        · constructor
          · rw [getFromType, hrl]
            dsimp only
            by_cases hc : c < env.length
            · exact (hC c reg
                (lt_of_lt_of_le (unregCount_insert_lt _ hc hrl) h)).1
            · have henv : env.get? c = none := by
                rw [List.get?_eq_none]
                omega
              rw [deriveDataclass, henv]
              simp
          · intro dr hdr
            rw [getFromType, hrl] at hdr
            dsimp only at hdr
            by_cases hc : c < env.length
            · have hCc := (hC c reg
                (lt_of_lt_of_le (unregCount_insert_lt _ hc hrl) h)).2 dr hdr
              refine ⟨le_trans hCc.2.2.1 (unregCount_insert_le env reg c _), ?_⟩
              intro i d0 hi
              have hic : i ≠ c := by
                intro he
                rw [he, hrl] at hi
                cases hi
              exact hCc.2.2.2 i d0 hic hi
            · have henv : env.get? c = none := by
                rw [List.get?_eq_none]
                omega
              rw [deriveDataclass, henv] at hdr
              cases hdr
        · constructor
          · rw [getFromType, hrl]
            simp
          · intro dr hdr
            rw [getFromType, hrl] at hdr
            dsimp only at hdr
            cases hdr
            exact ⟨le_refl _, fun i d0 hi => hi⟩
      | fsUnsupported =>
        intro reg h
        refine ⟨by rw [getFromType]; simp, ?_⟩
        intro dr hdr
        rw [getFromType] at hdr
        cases hdr
    have hB : ∀ flds reg, unregCount env reg ≤ fuel →
        goFields env fuel reg flds ≠ .error .fuelExhausted ∧
        ∀ reg', goFields env fuel reg flds = .ok reg' →
          unregCount env reg' ≤ unregCount env reg ∧
          ∀ i d0, regLookup reg i = some d0 → regLookup reg' i = some d0 := by
      intro flds
      induction flds with
      | nil =>
        intro reg h
        refine ⟨by rw [goFields]; simp, ?_⟩
        intro reg' hr
        rw [goFields] at hr
        cases hr
        exact ⟨le_refl _, fun i d0 hi => hi⟩
      | cons f rest ihf =>
        intro reg h
        obtain ⟨fname, ft⟩ := f
        constructor
        · rw [goFields]
          rcases hg : getFromType env fuel ft reg with e | dr <;>
            (try rw [hg]) <;> (try dsimp only)
          · intro hcon
            injection hcon with he
            exact (hA ft reg h).1 (by rw [hg, he])
          · obtain ⟨hle, _⟩ := (hA ft reg h).2 dr hg
            exact (ihf dr.2 (le_trans hle h)).1
        · intro reg' hr
          rw [goFields] at hr
          rcases hg : getFromType env fuel ft reg with e | dr <;>
            (try rw [hg] at hr) <;> (try dsimp only at hr)
          · cases hr
          · obtain ⟨hle, hp⟩ := (hA ft reg h).2 dr hg
            obtain ⟨hle2, hp2⟩ := (ihf dr.2 (le_trans hle h)).2 reg' hr
            exact ⟨le_trans hle2 hle, fun i d0 hi => hp2 i d0 (hp i d0 hi)⟩
    exact ⟨hA, hB, hC⟩

/-- Claim C8: deriving a dataclass deserializer registers the forward
stub `deserialize_dataclass` for the class *before* descending into its
fields (visible in the definition of `deriveDataclass`), and the
recursion terminates — once the call-depth allowance exceeds the number
of declared classes the fuel bound is never reached, for every
environment, class and starting registry, self-referential classes
included — and on success the registry entry left for the class is the
very deserializer returned. -/
theorem claim8_forward_stub_derivation (env : DcEnv) (c : Nat)
    (reg : Registry) (fuel : Nat) (hfuel : env.length < fuel) :
    deriveDataclass env fuel c reg ≠ .error .fuelExhausted ∧
    ∀ dr, deriveDataclass env fuel c reg = .ok dr →
      dr.1 = .dDataclass c ∧ regLookup dr.2 c = some (.dDataclass c) := by
  have h := (derivation_props env fuel).2.2 c reg
    (lt_of_le_of_lt (unregCount_le_len env _) hfuel)
  refine ⟨h.1, ?_⟩
  intro dr hdr
  exact ⟨(h.2 dr hdr).1, (h.2 dr hdr).2.1⟩

/-- Witness for claim C8: the directly self-referential dataclass
`class Node: children: list[Node]` derives successfully from the empty
registry with call-depth allowance 2, returning the class's own
`deserialize_dataclass`, which is also the registry entry. -/
theorem claim8_witness :
    deriveDataclass [[("children", .fsList (.fsDataclass 0))]] 2 0 [] =
      .ok (.dDataclass 0, [(0, .dDataclass 0)]) ∧
    deriveDataclass [[("children", .fsList (.fsDataclass 0))]] 2 0 [] ≠
      .error .fuelExhausted ∧
    (DeserRepr.dDataclass 0, ([(0, DeserRepr.dDataclass 0)] : Registry)).1 =
      .dDataclass 0 ∧
    regLookup [(0, .dDataclass 0)] 0 = some (.dDataclass 0) := by
  have hrun : deriveDataclass [[("children", .fsList (.fsDataclass 0))]] 2 0 []
      = .ok (.dDataclass 0, [(0, .dDataclass 0)]) := by
    rw [deriveDataclass]
    simp [goFields, getFromType, regInsert, regLookup]
  have h := claim8_forward_stub_derivation
    [[("children", .fsList (.fsDataclass 0))]] 0 [] 2 (by decide)
  exact ⟨hrun, h.1, h.2 _ hrun⟩

end Spec2Proof
